import Mathlib

/-!
Shallow embedding of the core subsystems of the `testassitant` repository:

* the Markdown → ADF (Atlassian Document Format) encoders
  (`markdownToAdf`, two evolutions: `src/src/app/actions.ts` lines 589-653,
  called V1 here, and `src/unnamed/part_003` lines 73-167, called V2),
* the plain-text helpers `textToAdf` (actions.ts line 49, part_003 line 55),
* the ADF → plain-text decoder `extractTextFromADF`
  (actions.ts lines 656-680; the copies in part_003/part_004 are identical),
* the hierarchical ticket-creation orchestrator `createJiraTicketsAction`
  (two evolutions: actions.ts lines 408-520 = V1, part_003 lines 589-701 = V2).

JavaScript strings are modelled as `List Char`.  The external Jira REST
call (`fetch` on `/rest/api/3/issue`) is the stub boundary: a `Stub`
maps the index of the call (the number of calls made so far) to either
the assigned issue key (`Except.ok`) or to the formatted
status-and-body error text that the source code interpolates into its
per-node error message (`Except.error`).
-/

set_option maxHeartbeats 1000000

abbrev Str := List Char

/-- JavaScript `\s` (the whitespace characters relevant to this code base). -/
def isWs (c : Char) : Bool :=
  c = ' ' || c = '\t' || c = '\n' || c = '\r' || c = '\x0b' || c = '\x0c'

/-- `String.prototype.trimStart`. -/
def trimL (s : Str) : Str := s.dropWhile isWs

/-- `String.prototype.trimEnd`. -/
def trimR (s : Str) : Str := (s.reverse.dropWhile isWs).reverse

/-- `String.prototype.trim`. -/
def trim (s : Str) : Str := trimR (trimL s)

/-- `String.prototype.startsWith`. -/
def startsWith : Str → Str → Bool
  | _, [] => true
  | [], _ :: _ => false
  | c :: s, d :: t => c = d && startsWith s t

/-- `String.prototype.endsWith`. -/
def endsWith (s t : Str) : Bool := startsWith s.reverse t.reverse

/-- `Array.prototype.join(sep)`. -/
def joinSep (sep : Str) : List Str → Str
  | [] => []
  | [x] => x
  | x :: y :: rest => x ++ sep ++ joinSep sep (y :: rest)

/-- `String.prototype.split('\n')`.  A split never yields an empty
piece list, and no piece contains the separator. -/
def splitNl : Str → List Str
  | [] => [[]]
  | c :: rest =>
    if c = '\n' then [] :: splitNl rest
    else
      match splitNl rest with
      | p :: ps => (c :: p) :: ps
      | [] => [[c]]

/-- A dynamically-shaped ADF JSON node, discriminated by `type`; fields
`text` (text leaves), `level` (`attrs.level` of headings), `version`
(document roots) and `content` (child array) are present only on some
node shapes, mirroring the untyped JSON of the source. -/
inductive Adf where
  | mk (type : Str) (text : Option Str) (level : Option Nat)
       (version : Option Nat) (content : Option (List Adf))
deriving Repr

def Adf.type : Adf → Str
  | .mk t _ _ _ _ => t

def Adf.text : Adf → Option Str
  | .mk _ t _ _ _ => t

def Adf.level : Adf → Option Nat
  | .mk _ _ l _ _ => l

def Adf.version : Adf → Option Nat
  | .mk _ _ _ v _ => v

def Adf.content : Adf → Option (List Adf)
  | .mk _ _ _ _ c => c

/-- `{type:"text", text}` -/
def adfText (t : Str) : Adf := .mk "text".data (some t) none none none

/-- `{type:"heading", attrs:{level}, content:[{type:"text",text}]}` -/
def adfHeading (lvl : Nat) (t : Str) : Adf :=
  .mk "heading".data none (some lvl) none (some [adfText t])

/-- `{type:"paragraph", content:[{type:"text",text}]}` -/
def adfPara (t : Str) : Adf :=
  .mk "paragraph".data none none none (some [adfText t])

/-- `{type:"listItem", content:[paragraph]}` -/
def adfListItem (t : Str) : Adf :=
  .mk "listItem".data none none none (some [adfPara t])

inductive ListKind where
  | ordered
  | bullet
deriving DecidableEq, Repr

/-- `'orderedList'` / `'bulletList'` -/
def ListKind.name : ListKind → Str
  | .ordered => "orderedList".data
  | .bullet => "bulletList".data

/-- `{type:"orderedList"|"bulletList", content:[listItem...]}` -/
def adfList (k : ListKind) (items : List Adf) : Adf :=
  .mk k.name none none none (some items)

/-- `{type:"doc", version:1, content:[...]}` -/
def adfDoc (blocks : List Adf) : Adf :=
  .mk "doc".data none none (some 1) (some blocks)

/-- The regex match `/^\d+\.\s+/` together with the item text it leaves
behind: `trimmedLine.replace(/^\d+\.\s+/, '').trim()` (V1), equal to
capture group 2 of `/^(\d+)\.\s+(.*)/` followed by `.trim()` (V2). -/
def matchOrdered (s : Str) : Option Str :=
  let digits := s.takeWhile Char.isDigit
  let rest := s.dropWhile Char.isDigit
  if digits = [] then none
  else
    match rest with
    | '.' :: r => if r.takeWhile isWs = [] then none else some (trim (r.dropWhile isWs))
    | _ => none

/-- The regex match `/^[-*]\s+/` with the item text it leaves behind
(`.replace(/^[-*]\s+/, '').trim()` in V1, capture group 1 `.trim()` in V2). -/
def matchBullet (s : Str) : Option Str :=
  match s with
  | c :: r =>
    if c = '-' || c = '*' then
      if r.takeWhile isWs = [] then none else some (trim (r.dropWhile isWs))
    else none
  | [] => none

/-- `trimmedLine.match(/^(\d+\.|[-*])\s+/)` — the check that classifies a
line as (any kind of) list item. -/
def isListLine (s : Str) : Bool :=
  (matchOrdered s).isSome || (matchBullet s).isSome

/-! ### Encoder V1: `markdownToAdf`, actions.ts lines 589-653 -/

/-- Loop state of the V1 encoder: the accumulated block array and the
`inList` variable (`'orderedList' | 'bulletList' | null`). -/
structure EncStV1 where
  adfContent : List Adf
  inList : Option ListKind
deriving Repr

/-- `adfContent[adfContent.length - 1].content.push(listItem)`.  When
`adfContent` is empty the JavaScript would throw; that state is
unreachable while `inList` is set (see `runLinesV1_inv`). -/
def pushLast (bs : List Adf) (child : Adf) : List Adf :=
  match bs.getLast? with
  | some (.mk ty tx lv vr ct) =>
      bs.dropLast ++ [.mk ty tx lv vr (some ((ct.getD []) ++ [child]))]
  | none => []

/-- One iteration of the V1 `for (const line of lines)` loop. -/
def stepV1 (st : EncStV1) (line : Str) : EncStV1 :=
  let trimmedLine := trim line
  -- `if (!trimmedLine.match(/^(\d+\.|[-*])\s+/) && inList) { inList = null; }`
  let st := if ¬isListLine trimmedLine ∧ st.inList.isSome then { st with inList := none } else st
  if startsWith trimmedLine "## ".data then
    { st with adfContent := st.adfContent ++ [adfHeading 2 (trim (trimmedLine.drop 3))] }
  else if startsWith trimmedLine "# ".data then
    { st with adfContent := st.adfContent ++ [adfHeading 1 (trim (trimmedLine.drop 2))] }
  else
    match matchOrdered trimmedLine with
    | some text =>
      if st.inList = some .ordered then
        { st with adfContent := pushLast st.adfContent (adfListItem text) }
      else
        { adfContent := st.adfContent ++ [adfList .ordered [adfListItem text]],
          inList := some .ordered }
    | none =>
      match matchBullet trimmedLine with
      | some text =>
        if st.inList = some .bullet then
          { st with adfContent := pushLast st.adfContent (adfListItem text) }
        else
          { adfContent := st.adfContent ++ [adfList .bullet [adfListItem text]],
            inList := some .bullet }
      | none =>
        if trimmedLine ≠ [] then
          { st with adfContent := st.adfContent ++ [adfPara trimmedLine] }
        else st

def runLinesV1 (lines : List Str) : EncStV1 :=
  lines.foldl stepV1 ⟨[], none⟩

/-- `markdownToAdf` of actions.ts lines 589-653 (`undefined` and the
empty string are both falsy for `!markdown`). -/
def markdownToAdfV1 (markdown : Option Str) : Option Adf :=
  match markdown with
  | none => none
  | some md =>
    if md = [] ∨ trim md = [] then none
    else
      let adfContent := (runLinesV1 (splitNl md)).adfContent
      if adfContent.length = 0 then none else some (adfDoc adfContent)

/-! ### Encoder V2: `markdownToAdf`, part_003 lines 73-167 -/

/-- Loop state of the V2 encoder (`adfContent`, `inList`, `listType`,
`currentListItems`). -/
structure EncStV2 where
  adfContent : List Adf
  inList : Bool
  listType : Option ListKind
  currentListItems : List Adf
deriving Repr

/-- `flushList()` of part_003 lines 83-90. -/
def flushList (st : EncStV2) : EncStV2 :=
  let newContent :=
    match st.inList, st.listType, st.currentListItems with
    | true, some k, itms =>
        if itms.length > 0 then st.adfContent ++ [adfList k itms] else st.adfContent
    | _, _, _ => st.adfContent
  ⟨newContent, false, none, []⟩

/-- One iteration of the V2 `for (const line of lines)` loop
(part_003 lines 92-161; the `continue`s become an if/else cascade). -/
def stepV2 (st : EncStV2) (line : Str) : EncStV2 :=
  let trimmedLine := trim line
  if startsWith trimmedLine "## ".data then
    let st := flushList st
    { st with adfContent := st.adfContent ++ [adfHeading 2 (trim (trimmedLine.drop 3))] }
  else if startsWith trimmedLine "# ".data then
    let st := flushList st
    { st with adfContent := st.adfContent ++ [adfHeading 1 (trim (trimmedLine.drop 2))] }
  else
    match matchOrdered trimmedLine with
    | some text =>
      let st := if ¬st.inList ∨ st.listType ≠ some .ordered then
          { flushList st with inList := true, listType := some .ordered }
        else st
      { st with currentListItems := st.currentListItems ++ [adfListItem text] }
    | none =>
      match matchBullet trimmedLine with
      | some text =>
        let st := if ¬st.inList ∨ st.listType ≠ some .bullet then
            { flushList st with inList := true, listType := some .bullet }
          else st
        { st with currentListItems := st.currentListItems ++ [adfListItem text] }
      | none =>
        -- `if (trimmedLine !== "" && inList) { flushList(); }`
        let st := if trimmedLine ≠ [] ∧ st.inList then flushList st else st
        if trimmedLine ≠ [] then
          { st with adfContent := st.adfContent ++ [adfPara trimmedLine] }
        else st

def runLinesV2 (lines : List Str) : EncStV2 :=
  lines.foldl stepV2 ⟨[], false, none, []⟩

/-- `markdownToAdf` of part_003 lines 73-167 (with the trailing
`flushList()` at line 162). -/
def markdownToAdfV2 (markdown : Option Str) : Option Adf :=
  match markdown with
  | none => none
  | some md =>
    if md = [] ∨ trim md = [] then none
    else
      let fin := flushList (runLinesV2 (splitNl md))
      if fin.adfContent.length = 0 then none else some (adfDoc fin.adfContent)

/-! ### `textToAdf` helpers -/

/-- `textToAdf` of actions.ts lines 49-58: every line (including blank
ones) becomes a paragraph, the text runs are not trimmed. -/
def textToAdfV1 (text : Str) : Option Adf :=
  if text = [] then none
  else some (adfDoc ((splitNl text).map adfPara))

/-- `textToAdf` of part_003 lines 55-70: blank lines are dropped
(`map` to `null` + `filter`), text runs are trimmed. -/
def textToAdfV2 (text : Option Str) : Option Adf :=
  match text with
  | none => none
  | some t =>
    if t = [] ∨ trim t = [] then none
    else some (adfDoc ((splitNl t).filterMap fun p =>
      if trim p = [] then none else some (adfPara (trim p))))

/-! ### Decoder: `extractTextFromADF`, actions.ts lines 656-680 -/

/-- `textContent.replace(/\s+\n/g, '\n')`: each maximal whitespace run
that contains a `'\n'` at offset ≥ 1 is collapsed, up to and including
its last `'\n'`, into a single `'\n'` (greedy `\s+` with backtracking
to the required final `'\n'`), scanning left to right. -/
def collapseWsNl.go : Nat → Str → Str
  | _, [] => []
  | 0, s => s
  | fuel + 1, c :: rest =>
    if isWs c then
      -- one maximal whitespace run at a time; the part of the run after
      -- its last '\n' contains no '\n' and is followed by a non-whitespace
      -- character (or the end), so scanning resumes after the run
      let run := (c :: rest).takeWhile isWs
      let after := (c :: rest).dropWhile isWs
      let tailNonNl := (run.reverse.takeWhile (fun x => x ≠ '\n')).length
      let matchLen := run.length - tailNonNl
      (if 2 ≤ matchLen then '\n' :: run.drop matchLen else run) ++ collapseWsNl.go fuel after
    else c :: collapseWsNl.go fuel rest

def collapseWsNl (s : Str) : Str := collapseWsNl.go s.length s

/-- The possible inputs of `extractTextFromADF` (`any` in the source):
`null`/`undefined`, a bare string, or an ADF-shaped object. -/
inductive AdfInput where
  | null
  | str (s : Str)
  | node (a : Adf)

def adfInputOfOpt : Option Adf → AdfInput
  | none => .null
  | some a => .node a

mutual

/-- The body of the `traverseNodes` closure of actions.ts lines 663-677
for one node: append the `text` of text nodes, recurse into a `content`
array when present, and after each `paragraph` node append one `'\n'`
when the accumulated text is non-empty, does not end in `"\n\n"`, has
non-blank trim and does not already end in `'\n'`. -/
def traverseNode (acc : Str) : Adf → Str
  | .mk ty tx _ _ none =>
    let acc1 := match tx with
      | some s => if ty = "text".data ∧ s ≠ [] then acc ++ s else acc
      | none => acc
    if ty = "paragraph".data ∧ acc1 ≠ [] ∧ ¬(endsWith acc1 ['\n', '\n']) then
      if trim acc1 ≠ [] ∧ ¬(endsWith acc1 ['\n']) then acc1 ++ ['\n'] else acc1
    else acc1
  | .mk ty tx _ _ (some l) =>
    let acc1 := match tx with
      | some s => if ty = "text".data ∧ s ≠ [] then acc ++ s else acc
      | none => acc
    let acc2 := traverseNodes acc1 l
    if ty = "paragraph".data ∧ acc2 ≠ [] ∧ ¬(endsWith acc2 ['\n', '\n']) then
      if trim acc2 ≠ [] ∧ ¬(endsWith acc2 ['\n']) then acc2 ++ ['\n'] else acc2
    else acc2

def traverseNodes (acc : Str) : List Adf → Str
  | [] => acc
  | n :: ns => traverseNodes (traverseNode acc n) ns

end

/-- `extractTextFromADF` of actions.ts lines 656-680.  A bare empty
string hits the `if (!adf)` guard, with the same result as the string
pass-through. -/
def extractTextFromADF (adf : AdfInput) : Str :=
  match adf with
  | .null => []
  | .str s => s
  | .node a =>
    match a.content with
    | none => []
    | some nodes => collapseWsNl (trim (traverseNodes [] nodes))

/-! ### Decoder as worded by the specification (for claim C9)

`decodeSpecC9` is written from the claim's words, not from the source:
"the concatenation of all Text values in document order where exactly
one newline is appended after each Paragraph whose accumulated text is
non-empty and does not already end in a newline, with the final result
trimmed of leading/trailing whitespace and every whitespace run
immediately followed by a newline collapsed to a single newline." -/

mutual

def traverseSpecNode (acc : Str) : Adf → Str
  | .mk ty tx _ _ none =>
    let acc1 := match tx with
      | some s => if ty = "text".data ∧ s ≠ [] then acc ++ s else acc
      | none => acc
    if ty = "paragraph".data ∧ acc1 ≠ [] ∧ ¬(endsWith acc1 ['\n']) then acc1 ++ ['\n']
    else acc1
  | .mk ty tx _ _ (some l) =>
    let acc1 := match tx with
      | some s => if ty = "text".data ∧ s ≠ [] then acc ++ s else acc
      | none => acc
    let acc2 := traverseSpecC9 acc1 l
    if ty = "paragraph".data ∧ acc2 ≠ [] ∧ ¬(endsWith acc2 ['\n']) then acc2 ++ ['\n']
    else acc2

def traverseSpecC9 (acc : Str) : List Adf → Str
  | [] => acc
  | n :: ns => traverseSpecC9 (traverseSpecNode acc n) ns

end

def decodeSpecC9 (adf : AdfInput) : Str :=
  match adf with
  | .null => []
  | .str s => s
  | .node a =>
    match a.content with
    | none => []
    | some nodes => collapseWsNl (trim (traverseSpecC9 [] nodes))

/-! ### Ticket draft model (`DraftTicketRecursive`, lib/schemas.ts 82-98) -/

/-- `z.enum(["Epic", "Story", "Task", "Sub-task", "Bug"])` -/
inductive TicketType where
  | epic
  | story
  | task
  | subtask
  | bug
deriving DecidableEq, Repr

def TicketType.name : TicketType → Str
  | .epic => "Epic".data
  | .story => "Story".data
  | .task => "Task".data
  | .subtask => "Sub-task".data
  | .bug => "Bug".data

/-- `DraftTicketRecursive` (an absent `children` array behaves exactly
like an empty one in both orchestrators). -/
inductive DraftTicket where
  | mk (type : TicketType) (summary : Str) (description : Str)
       (acceptanceCriteria : Option Str) (suggestedId : Option Str)
       (children : List DraftTicket)
deriving Repr

def DraftTicket.type : DraftTicket → TicketType
  | .mk t _ _ _ _ _ => t

def DraftTicket.summary : DraftTicket → Str
  | .mk _ s _ _ _ _ => s

def DraftTicket.description : DraftTicket → Str
  | .mk _ _ d _ _ _ => d

def DraftTicket.acceptanceCriteria : DraftTicket → Option Str
  | .mk _ _ _ a _ _ => a

def DraftTicket.children : DraftTicket → List DraftTicket
  | .mk _ _ _ _ _ c => c

theorem sizeOf_children_lt (t : DraftTicket) : sizeOf t.children < sizeOf t := by
  cases t with
  | mk ty sm de ac si ch => simp [DraftTicket.children]

mutual

/-- The per-ticket contribution to `countAllDraftTickets`
(`count++` plus the recursive count of a non-empty `children` array). -/
def countDraftTicket : DraftTicket → Nat
  | .mk _ _ _ _ _ ch => 1 + (if ch.length > 0 then countAllDraftTickets ch else 0)

/-- `countAllDraftTickets` of part_003 lines 578-587. -/
def countAllDraftTickets : List DraftTicket → Nat
  | [] => 0
  | t :: rest => countDraftTicket t + countAllDraftTickets rest

end

/-! ### Orchestrator: `createJiraTicketsAction`

V1 = actions.ts lines 408-520, V2 = part_003 lines 589-701. -/

/-- The stub for the external create-item collaborator (the `fetch` of
`POST /rest/api/3/issue`): call index ↦ assigned issue key on success,
or the formatted status-and-body error text on failure (the part the
source interpolates after `": "` in its per-node error message). -/
def Stub := Nat → Except Str Str

/-- The observable part of one invocation of the collaborator: the
request payload fields built by `createSingleTicket` plus, for
call-order reasoning, the `parentJiraKey` argument the orchestrator
passed in.  The payload has no field for an epic link or for
acceptance criteria in either evolution. -/
structure CallRec where
  project : Str
  summary : Str
  issuetype : Str
  description : Option Adf
  parent : Option Str
  argParentKey : Option Str
deriving Repr

structure CreatedRec where
  key : Str
  summary : Str
  type : Str
deriving Repr

/-- The mutable state of one `createJiraTicketsAction` run: the trace of
collaborator calls (the stub is indexed by `calls.length`), plus the
accumulating `createdTicketsResult` and `errorMessages` arrays. -/
structure OrchSt where
  calls : List CallRec
  createdTicketsResult : List CreatedRec
  errorMessages : List Str
deriving Repr

def initOrchSt : OrchSt := ⟨[], [], []⟩

/-- `payload.fields.parent = { key: parentJiraKey }` is set only
`if (parentJiraKey && ticketData.type === 'Sub-task')` (an empty-string
key is falsy); identical in both evolutions. -/
def payloadParent (t : DraftTicket) (parentJiraKey : Option Str) : Option Str :=
  match parentJiraKey with
  | some k => if k ≠ [] ∧ t.type = .subtask then some k else none
  | none => none

/-- The V1 request payload (actions.ts lines 431-447). -/
def buildCallV1 (projectId : Str) (t : DraftTicket) (parentJiraKey : Option Str) : CallRec :=
  { project := projectId
    summary := t.summary
    issuetype := t.type.name
    description := textToAdfV1 t.description
    parent := payloadParent t parentJiraKey
    argParentKey := parentJiraKey }

/-- `combinedDescriptionText` of part_003 lines 611-614. -/
def combinedDescriptionV2 (t : DraftTicket) : Str :=
  t.description ++
    (match t.acceptanceCriteria with
     | some ac =>
       if ac ≠ [] ∧ trim ac ≠ [] then
         "\n\nAcceptance Criteria:\n".data ++ trim ac
       else []
     | none => [])

/-- `if (descriptionADF && descriptionADF.content && descriptionADF.content.length > 0)`
(part_003 line 624): the description field is included only when the
ADF is non-null with non-empty content. -/
def descFieldV2 (descriptionADF : Option Adf) : Option Adf :=
  match descriptionADF with
  | some d => match d.content with
    | some l => if l.length > 0 then some d else none
    | none => none
  | none => none

/-- The V2 request payload (part_003 lines 615-630). -/
def buildCallV2 (projectId : Str) (t : DraftTicket) (parentJiraKey : Option Str) : CallRec :=
  { project := projectId
    summary := t.summary
    issuetype := t.type.name
    description := descFieldV2 (textToAdfV2 (some (trim (combinedDescriptionV2 t))))
    parent := payloadParent t parentJiraKey
    argParentKey := parentJiraKey }

/-- V1 per-node error message (actions.ts line 466):
`Failed to create ${type} "${summary.substring(0,30)}...": ${status} - ${shortError}`,
with the status-and-error part supplied by the stub. -/
def failMsg (t : DraftTicket) (e : Str) : Str :=
  "Failed to create ".data ++ t.type.name ++ " \"".data ++ t.summary.take 30
    ++ "...\": ".data ++ e

/-- `createSingleTicket` (V1, actions.ts lines 428-469): build the
payload, call the collaborator, and on failure push the per-node error
message. -/
def createSingleTicketV1 (stub : Stub) (projectId : Str) (t : DraftTicket)
    (parentJiraKey : Option Str) (s : OrchSt) : Except Str Str × OrchSt :=
  let call := buildCallV1 projectId t parentJiraKey
  match stub s.calls.length with
  | .ok key => (.ok key, { s with calls := s.calls ++ [call] })
  | .error e =>
    (.error e,
     { s with calls := s.calls ++ [call],
              errorMessages := s.errorMessages ++ [failMsg t e] })

/-- `createSingleTicket` (V2, part_003 lines 610-662); the per-node
message format at line 659 coincides with V1's with the stub supplying
the `${userFriendlyError}` part. -/
def createSingleTicketV2 (stub : Stub) (projectId : Str) (t : DraftTicket)
    (parentJiraKey : Option Str) (s : OrchSt) : Except Str Str × OrchSt :=
  let call := buildCallV2 projectId t parentJiraKey
  match stub s.calls.length with
  | .ok key => (.ok key, { s with calls := s.calls ++ [call] })
  | .error e =>
    (.error e,
     { s with calls := s.calls ++ [call],
              errorMessages := s.errorMessages ++ [failMsg t e] })

mutual

/-- One iteration of the V1 `for (const ticket of ticketList)` loop:
on success push the created entry and recurse into the children with
the new key as `parentJiraKey`; on failure the errors were already
collected by `createSingleTicket`. -/
def createTicketNodeV1 (stub : Stub) (projectId : Str) :
    DraftTicket → Option Str → OrchSt → OrchSt
  | t@(.mk _ _ _ _ _ ch), parentJiraKey, s =>
    match createSingleTicketV1 stub projectId t parentJiraKey s with
    | (.ok key, s1) =>
      let s2 := { s1 with createdTicketsResult :=
        s1.createdTicketsResult ++ [⟨key, t.summary, t.type.name⟩] }
      if ch.length > 0 then
        createTicketsRecursivelyV1 stub projectId ch (some key) s2
      else s2
    | (.error _, s1) => s1

/-- `createTicketsRecursively` (V1, actions.ts lines 472-485). -/
def createTicketsRecursivelyV1 (stub : Stub) (projectId : Str) :
    List DraftTicket → Option Str → OrchSt → OrchSt
  | [], _, s => s
  | t :: rest, parentJiraKey, s =>
    createTicketsRecursivelyV1 stub projectId rest parentJiraKey
      (createTicketNodeV1 stub projectId t parentJiraKey s)

end

mutual

/-- One iteration of the V2 loop body: children of an `Epic` get no
parent key
(`newParentKeyForChildren = (ticket.type !== 'Epic') ? key : undefined`). -/
def createTicketNodeV2 (stub : Stub) (projectId : Str) :
    DraftTicket → Option Str → OrchSt → OrchSt
  | t@(.mk _ _ _ _ _ ch), parentJiraKeyForSubtasks, s =>
    match createSingleTicketV2 stub projectId t parentJiraKeyForSubtasks s with
    | (.ok key, s1) =>
      let s2 := { s1 with createdTicketsResult :=
        s1.createdTicketsResult ++ [⟨key, t.summary, t.type.name⟩] }
      if ch.length > 0 then
        createTicketsRecursivelyV2 stub projectId ch
          (if t.type ≠ .epic then some key else none) s2
      else s2
    | (.error _, s1) => s1

/-- `createTicketsRecursivelyInternal` (V2, part_003 lines 664-675). -/
def createTicketsRecursivelyV2 (stub : Stub) (projectId : Str) :
    List DraftTicket → Option Str → OrchSt → OrchSt
  | [], _, s => s
  | t :: rest, parentJiraKeyForSubtasks, s =>
    createTicketsRecursivelyV2 stub projectId rest parentJiraKeyForSubtasks
      (createTicketNodeV2 stub projectId t parentJiraKeyForSubtasks s)

end

/-- The batch loop of part_003 lines 677-681 (`BATCH_SIZE = 10`):
consecutive slices of the root list, each run with no parent key; the
fuel argument bounds the number of rounds. -/
def runBatchesV2.go (stub : Stub) (projectId : Str) : Nat → List DraftTicket → OrchSt → OrchSt
  | _, [], s => s
  | 0, _, s => s
  | fuel + 1, t :: rest, s =>
    runBatchesV2.go stub projectId fuel ((t :: rest).drop 10)
      (createTicketsRecursivelyV2 stub projectId ((t :: rest).take 10) none s)

/-- The batch loop runs `⌈n/10⌉` times; `n` units of fuel always
suffice since every round drops ten further roots. -/
def runBatchesV2 (stub : Stub) (projectId : Str) (ts : List DraftTicket) (s : OrchSt) : OrchSt :=
  runBatchesV2.go stub projectId ts.length ts s

structure ActionResult where
  success : Bool
  message : Str
  createdTickets : List CreatedRec
deriving Repr

/-- The aggregation of actions.ts lines 489-519 (the `throw` at line 515
is commented out in the source; no branch of the cascade throws). -/
def aggregateV1 (tickets : List DraftTicket) (s : OrchSt) : ActionResult :=
  let n := s.createdTicketsResult.length
  let overallSuccess := s.errorMessages.length = 0
  if n > 0 ∧ overallSuccess then
    ⟨true, "Successfully created ".data ++ (Nat.repr n).data ++ " ticket(s) in Jira.".data,
     s.createdTicketsResult⟩
  else if n > 0 ∧ ¬overallSuccess then
    ⟨false, "Partially created ".data ++ (Nat.repr n).data
      ++ " ticket(s). Some failures occurred: ".data ++ joinSep "; ".data s.errorMessages,
     s.createdTicketsResult⟩
  else if n = 0 ∧ ¬overallSuccess then
    ⟨false, "Failed to create any tickets in Jira. Errors: ".data
      ++ joinSep "; ".data s.errorMessages, s.createdTicketsResult⟩
  else if n = 0 ∧ overallSuccess ∧ tickets.length > 0 then
    ⟨false, ("No tickets were created, though no explicit errors were reported. "
      ++ "Please check the input or Jira configuration.").data, s.createdTicketsResult⟩
  else if tickets.length = 0 then
    ⟨true, "No tickets were provided to create.".data, s.createdTicketsResult⟩
  else
    ⟨decide overallSuccess, [], s.createdTicketsResult⟩

/-- `createJiraTicketsAction` (V1, actions.ts lines 408-520), after the
Zod validation of its inputs. -/
def createJiraTicketsActionV1 (stub : Stub) (projectId : Str)
    (tickets : List DraftTicket) : ActionResult :=
  aggregateV1 tickets (createTicketsRecursivelyV1 stub projectId tickets none initOrchSt)

/-- The aggregation of part_003 lines 683-700. -/
def aggregateV2 (totalTicketsToCreate : Nat) (s : OrchSt) : ActionResult :=
  let n := s.createdTicketsResult.length
  let overallSuccess := s.errorMessages.length = 0 ∧ n = totalTicketsToCreate
  if totalTicketsToCreate = 0 then
    ⟨true, "No tickets were provided to create.".data, s.createdTicketsResult⟩
  else if n > 0 ∧ overallSuccess then
    ⟨true, "Successfully created all ".data ++ (Nat.repr n).data
      ++ " ticket(s)/sub-task(s) in Jira.".data, s.createdTicketsResult⟩
  else if n > 0 ∧ ¬overallSuccess then
    ⟨false, "Partially created ".data ++ (Nat.repr n).data ++ " of ".data
      ++ (Nat.repr totalTicketsToCreate).data
      ++ " intended ticket(s)/sub-task(s). Failures: ".data
      ++ joinSep "; ".data s.errorMessages, s.createdTicketsResult⟩
  else if n = 0 ∧ ¬overallSuccess ∧ totalTicketsToCreate > 0 then
    ⟨false, "Failed to create any of the ".data ++ (Nat.repr totalTicketsToCreate).data
      ++ " intended tickets in Jira. Errors: ".data
      ++ joinSep "; ".data s.errorMessages, s.createdTicketsResult⟩
  else
    ⟨decide overallSuccess, [], s.createdTicketsResult⟩

/-- `createJiraTicketsAction` (V2, part_003 lines 589-701), after the
Zod validation of its inputs. -/
def createJiraTicketsActionV2 (stub : Stub) (projectId : Str)
    (allTickets : List DraftTicket) : ActionResult :=
  aggregateV2 (countAllDraftTickets allTickets)
    (runBatchesV2 stub projectId allTickets initOrchSt)

/-! ### Basic facts about the string model -/

def allWs (s : Str) : Prop := ∀ c ∈ s, isWs c = true

theorem allWs_nil : allWs [] := by intro c hc; cases hc

theorem allWs_append {a b : Str} (ha : allWs a) (hb : allWs b) : allWs (a ++ b) := by
  intro c hc
  rcases List.mem_append.1 hc with h | h
  · exact ha c h
  · exact hb c h

theorem trimL_eq_nil_iff {s : Str} : trimL s = [] ↔ allWs s := by
  simp [trimL, List.dropWhile_eq_nil_iff, allWs]

theorem allWs_reverse {s : Str} (h : allWs s) : allWs s.reverse := by
  intro c hc; exact h c (List.mem_reverse.1 hc)

theorem trimR_eq_nil_iff {s : Str} : trimR s = [] ↔ allWs s := by
  constructor
  · intro h
    have h2 : s.reverse.dropWhile isWs = [] := by
      have := congrArg List.reverse h
      simpa [trimR] using this
    intro c hc
    exact (List.dropWhile_eq_nil_iff.1 h2) c (List.mem_reverse.2 hc)
  · intro h
    have h2 : s.reverse.dropWhile isWs = [] :=
      List.dropWhile_eq_nil_iff.2 (fun c hc => h c (List.mem_reverse.1 hc))
    simp [trimR, h2]

theorem allWs_of_trimL {s : Str} (h : allWs (trimL s)) : allWs s := by
  intro c hc
  have hsplit : s.takeWhile isWs ++ s.dropWhile isWs = s := List.takeWhile_append_dropWhile isWs s
  rw [← hsplit] at hc
  rcases List.mem_append.1 hc with h1 | h1
  · exact List.mem_takeWhile_imp h1
  · exact h c h1

theorem trim_eq_nil_iff {s : Str} : trim s = [] ↔ allWs s := by
  constructor
  · intro h
    exact allWs_of_trimL (trimR_eq_nil_iff.1 h)
  · intro h
    have : trimL s = [] := trimL_eq_nil_iff.2 h
    simp [trim, this, trimR]

theorem trimL_cons_of_not_ws {c : Char} {r : Str} (h : isWs c = false) :
    trimL (c :: r) = c :: r := by
  simp [trimL, List.dropWhile_cons, h]

theorem trimL_append_of_allWs {w s : Str} (h : allWs w) : trimL (w ++ s) = trimL s := by
  induction w with
  | nil => rfl
  | cons c cs ih =>
    have hc : isWs c = true := h c (by simp)
    have hcs : allWs cs := fun x hx => h x (by simp [hx])
    simp [trimL, List.dropWhile_cons, hc]
    exact ih hcs

theorem trimR_concat_of_not_ws {c : Char} {s : Str} (h : isWs c = false) :
    trimR (s ++ [c]) = s ++ [c] := by
  simp [trimR, List.dropWhile_cons, h]

theorem trimR_append_of_allWs {w s : Str} (h : allWs w) : trimR (s ++ w) = trimR s := by
  induction w using List.reverseRecOn with
  | nil => simp
  | append_singleton cs c ih =>
    have hc : isWs c = true := h c (by simp)
    have hcs : allWs cs := fun x hx => h x (by simp [hx])
    rw [← List.append_assoc]
    simp only [trimR, List.reverse_append, List.reverse_cons]
    simp [List.dropWhile_cons, hc]
    have := ih hcs
    simpa [trimR] using this

theorem length_dropWhile_le (p : Char → Bool) (l : Str) : (l.dropWhile p).length ≤ l.length := by
  have h := congrArg List.length (List.takeWhile_append_dropWhile p l)
  simp only [List.length_append] at h
  omega

theorem trimL_length_le (s : Str) : (trimL s).length ≤ s.length :=
  length_dropWhile_le isWs s

theorem trimR_length_le (s : Str) : (trimR s).length ≤ s.length := by
  have := length_dropWhile_le isWs s.reverse
  simpa [trimR] using this

theorem trim_length_le (s : Str) : (trim s).length ≤ s.length :=
  le_trans (trimR_length_le (trimL s)) (trimL_length_le s)

theorem startsWith_nil_right {s : Str} : startsWith s [] = true := by
  cases s <;> rfl

theorem startsWith_singleton {s : Str} {d : Char} :
    startsWith s [d] = true ↔ ∃ r, s = d :: r := by
  cases s with
  | nil =>
    constructor
    · intro h; exact absurd h (by simp [startsWith])
    · rintro ⟨r, h⟩; cases h
  | cons c r =>
    by_cases hc : c = d
    · subst hc
      constructor
      · intro _; exact ⟨r, rfl⟩
      · intro _; simp [startsWith, startsWith_nil_right]
    · constructor
      · intro h
        exact absurd h (by simp [startsWith, hc])
      · rintro ⟨r2, h⟩
        injection h with h1 _
        exact absurd h1 hc

theorem endsWith_singleton {s : Str} {d : Char} :
    endsWith s [d] = true ↔ s.getLast? = some d := by
  rw [endsWith]
  show startsWith s.reverse [d] = true ↔ _
  rw [startsWith_singleton]
  constructor
  · rintro ⟨r, h⟩
    have h2 : s = (d :: r).reverse := by
      have := congrArg List.reverse h
      simpa using this
    rw [h2]
    simp
  · intro h
    rcases List.eq_nil_or_concat s with rfl | ⟨i, c, hic⟩
    · simp at h
    · rw [hic] at h ⊢
      simp at h
      subst h
      exact ⟨i.reverse, by simp⟩

theorem endsWith_singleton_false {s : Str} {d : Char} :
    endsWith s [d] = false ↔ s.getLast? ≠ some d := by
  constructor
  · intro h hc
    rw [endsWith_singleton.2 hc] at h
    cases h
  · intro h
    cases he : endsWith s [d]
    · rfl
    · exact absurd (endsWith_singleton.1 he) h

theorem getLast?_append_of_ne_nil {α : Type} {a b : List α} (h : b ≠ []) :
    (a ++ b).getLast? = b.getLast? := by
  rcases List.eq_nil_or_concat b with rfl | ⟨i, c, hic⟩
  · exact absurd rfl h
  · rw [hic, List.concat_eq_append, ← List.append_assoc]
    simp

/-- A trimmed non-empty string has a non-whitespace head and a
non-whitespace last character. -/
theorem head_last_of_trimmed {s : Str} (ht : trim s = s) (hne : s ≠ []) :
    ∃ c r d, s = c :: r ∧ s.getLast? = some d ∧ isWs c = false ∧ isWs d = false := by
  cases s with
  | nil => exact absurd rfl hne
  | cons c r =>
    have hc : isWs c = false := by
      cases hcc : isWs c
      · rfl
      · exfalso
        have h1 : trimL (c :: r) = trimL r := by
          simp [trimL, List.dropWhile_cons, hcc]
        have h2 : (trim (c :: r)).length ≤ r.length := by
          calc (trim (c :: r)).length ≤ (trimL (c :: r)).length := trimR_length_le _
            _ = (trimL r).length := by rw [h1]
            _ ≤ r.length := trimL_length_le r
        rw [ht] at h2
        simp at h2
    rcases List.eq_nil_or_concat (c :: r) with habs | ⟨i, d, hcat⟩
    · simp at habs
    · have hd : isWs d = false := by
        cases hdd : isWs d
        · rfl
        · exfalso
          have h1 : trimL (c :: r) = c :: r := trimL_cons_of_not_ws hc
          have h2 : trim (c :: r) = trimR (c :: r) := by rw [trim, h1]
          have h3 : trimR (i ++ [d]) = trimR i :=
            trimR_append_of_allWs (by intro x hx; simp at hx; rw [hx]; exact hdd)
          have h4 : (trim (c :: r)).length ≤ i.length := by
            rw [h2, hcat, List.concat_eq_append, h3]
            exact trimR_length_le i
          rw [ht, hcat] at h4
          simp at h4
      refine ⟨c, r, d, rfl, ?_, hc, hd⟩
      rw [hcat]
      simp

theorem trim_eq_self_of_boundary {c d : Char} {r : Str} (hc : isWs c = false)
    (hd : (c :: r).getLast? = some d) (hdw : isWs d = false) :
    trim (c :: r) = c :: r := by
  have h1 : trimL (c :: r) = c :: r := trimL_cons_of_not_ws hc
  rcases List.eq_nil_or_concat (c :: r) with habs | ⟨i, e, hcat⟩
  · simp at habs
  · rw [hcat] at hd
    simp at hd
    subst hd
    rw [trim, h1, hcat, List.concat_eq_append]
    exact trimR_concat_of_not_ws hdw

/-! ### Claim C6 -/

/-- C6: for every blank or whitespace-only input string, both encoder
evolutions return `null` (as they do for an absent input), and no
encoder output is ever a document with an empty block sequence. -/
theorem c6_blank_input_absent :
    (∀ t : Str, trim t = [] →
      markdownToAdfV1 (some t) = none ∧ markdownToAdfV2 (some t) = none ∧
      markdownToAdfV1 none = none ∧ markdownToAdfV2 none = none) ∧
    (∀ (o : Option Str) (d : Adf),
      markdownToAdfV1 o = some d ∨ markdownToAdfV2 o = some d →
      ∃ bs, d.content = some bs ∧ bs ≠ []) := by
  constructor
  · intro t ht
    refine ⟨?_, ?_, rfl, rfl⟩
    · simp [markdownToAdfV1, ht]
    · simp [markdownToAdfV2, ht]
  · intro o d h
    rcases h with h | h
    · cases o with
      | none => cases h
      | some md =>
        rw [markdownToAdfV1] at h
        by_cases hb : md = [] ∨ trim md = []
        · rw [if_pos hb] at h; cases h
        · rw [if_neg hb] at h
          by_cases hl : (runLinesV1 (splitNl md)).adfContent.length = 0
          · simp only [hl, if_pos] at h
            cases h
          · simp only [if_neg hl] at h
            cases h
            refine ⟨(runLinesV1 (splitNl md)).adfContent, rfl, ?_⟩
            intro hnil
            rw [hnil] at hl
            exact hl rfl
    · cases o with
      | none => cases h
      | some md =>
        rw [markdownToAdfV2] at h
        by_cases hb : md = [] ∨ trim md = []
        · rw [if_pos hb] at h; cases h
        · rw [if_neg hb] at h
          by_cases hl : (flushList (runLinesV2 (splitNl md))).adfContent.length = 0
          · simp only [hl, if_pos] at h
            cases h
          · simp only [if_neg hl] at h
            cases h
            refine ⟨(flushList (runLinesV2 (splitNl md))).adfContent, rfl, ?_⟩
            intro hnil
            rw [hnil] at hl
            exact hl rfl

/-- Witness for `c6_blank_input_absent` at the whitespace-only input
`"  \n\t "`. -/
theorem c6_blank_input_absent_witness :
    trim "  \n\t ".data = [] ∧ markdownToAdfV1 (some "  \n\t ".data) = none :=
  ⟨by decide, ((c6_blank_input_absent.1 "  \n\t ".data (by decide)).1)⟩

/-! ### Claim C8 -/

/-- C8: an empty root list yields success with an empty created list and
the "nothing to create" message, in both orchestrator evolutions; the
run is a total function (no exception is thrown). -/
theorem c8_empty_roots_vacuous_success (stub : Stub) (projectId : Str) :
    createJiraTicketsActionV1 stub projectId [] =
      ⟨true, "No tickets were provided to create.".data, []⟩ ∧
    createJiraTicketsActionV2 stub projectId [] =
      ⟨true, "No tickets were provided to create.".data, []⟩ := by
  constructor <;> rfl

/-! ### Line-classification facts for the encoders -/

theorem matchOrdered_head {s : Str} {txt : Str} (h : matchOrdered s = some txt) :
    ∃ c r, s = c :: r ∧ c.isDigit = true := by
  cases s with
  | nil => exact absurd h (by simp [matchOrdered])
  | cons c r =>
    cases hc : c.isDigit
    · exfalso
      rw [matchOrdered] at h
      simp only [List.takeWhile_cons, hc] at h
      simp at h
    · exact ⟨c, r, rfl, hc⟩

theorem matchBullet_head {s : Str} {txt : Str} (h : matchBullet s = some txt) :
    ∃ c r, s = c :: r ∧ (c = '-' ∨ c = '*') := by
  cases s with
  | nil => exact absurd h (by simp [matchBullet])
  | cons c r =>
    by_cases hc : c = '-' ∨ c = '*'
    · exact ⟨c, r, rfl, hc⟩
    · exfalso
      rw [matchBullet] at h
      have hb : (c = '-' || c = '*') = false := by
        rcases Bool.eq_false_or_eq_true (c = '-' || c = '*') with hh | hh
        · exfalso
          apply hc
          simpa using hh
        · exact hh
      rw [hb] at h
      simp at h

theorem matchOrdered_of_bullet {s : Str} {txt : Str} (h : matchBullet s = some txt) :
    matchOrdered s = none := by
  obtain ⟨c, r, rfl, hc⟩ := matchBullet_head h
  have hd : c.isDigit = false := by
    rcases hc with rfl | rfl <;> decide
  rw [matchOrdered]
  simp [List.takeWhile_cons, hd]

theorem not_heading_of_ordered {s : Str} {txt : Str} (h : matchOrdered s = some txt) :
    startsWith s "## ".data = false ∧ startsWith s "# ".data = false := by
  obtain ⟨c, r, rfl, hc⟩ := matchOrdered_head h
  have hne : (c = '#') = False := by
    simp only [eq_iff_iff, iff_false]
    intro hcc
    rw [hcc] at hc
    exact absurd hc (by decide)
  constructor <;> simp [startsWith, hne]

theorem not_heading_of_bullet {s : Str} {txt : Str} (h : matchBullet s = some txt) :
    startsWith s "## ".data = false ∧ startsWith s "# ".data = false := by
  obtain ⟨c, r, rfl, hc⟩ := matchBullet_head h
  have hne : (c = '#') = False := by
    simp only [eq_iff_iff, iff_false]
    intro hcc
    rcases hc with h1 | h1 <;> rw [hcc] at h1 <;> cases h1
  constructor <;> simp [startsWith, hne]

theorem not_list_of_heading2 {s : Str} (h : startsWith s "## ".data = true) :
    isListLine s = false := by
  rw [isListLine]
  cases hm : matchOrdered s with
  | some t =>
    exfalso
    obtain ⟨c, r, rfl, hc⟩ := matchOrdered_head hm
    have : c = '#' := by
      have hs : startsWith (c :: r) ('#' :: "# ".data) = true := h
      rw [startsWith] at hs
      simp at hs
      exact hs.1
    rw [this] at hc
    exact absurd hc (by decide)
  | none =>
    cases hb : matchBullet s with
    | some t =>
      exfalso
      obtain ⟨c, r, rfl, hc⟩ := matchBullet_head hb
      have : c = '#' := by
        have hs : startsWith (c :: r) ('#' :: "# ".data) = true := h
        rw [startsWith] at hs
        simp at hs
        exact hs.1
      rcases hc with h1 | h1 <;> rw [this] at h1 <;> cases h1
    | none => rfl

/-! ### V1 encoder step lemmas -/

theorem stepV1_closes_list {st : EncStV1} {l : Str} (h : isListLine (trim l) = false) :
    (stepV1 st l).inList = none := by
  have hM : matchOrdered (trim l) = none := by
    cases hm : matchOrdered (trim l) with
    | none => rfl
    | some t => rw [isListLine, hm] at h; simp at h
  have hB : matchBullet (trim l) = none := by
    cases hb : matchBullet (trim l) with
    | none => rfl
    | some t => rw [isListLine, hb] at h; simp at h
  rw [stepV1]
  simp only [hM, hB, h]
  split_ifs <;> simp_all

theorem stepV1_new_ordered {st : EncStV1} {l txt : Str} (hn : st.inList ≠ some .ordered)
    (hm : matchOrdered (trim l) = some txt) :
    stepV1 st l = ⟨st.adfContent ++ [adfList .ordered [adfListItem txt]], some .ordered⟩ := by
  obtain ⟨hh2, hh1⟩ := not_heading_of_ordered hm
  have hLL : isListLine (trim l) = true := by rw [isListLine, hm]; rfl
  rw [stepV1]
  simp only [hh1, hh2, hm, hLL]
  simp [hn]

theorem stepV1_new_bullet {st : EncStV1} {l txt : Str} (hn : st.inList ≠ some .bullet)
    (hm : matchBullet (trim l) = some txt) :
    stepV1 st l = ⟨st.adfContent ++ [adfList .bullet [adfListItem txt]], some .bullet⟩ := by
  obtain ⟨hh2, hh1⟩ := not_heading_of_bullet hm
  have hO := matchOrdered_of_bullet hm
  have hLL : isListLine (trim l) = true := by rw [isListLine, hm]; simp
  rw [stepV1]
  simp only [hh1, hh2, hm, hO, hLL]
  simp [hn]

theorem pushLast_concat {pre : List Adf} {k : ListKind} {items : List Adf} {it : Adf} :
    pushLast (pre ++ [adfList k items]) it = pre ++ [adfList k (items ++ [it])] := by
  rw [pushLast]
  rw [getLast?_append_of_ne_nil (by simp)]
  simp [adfList, List.dropLast_concat]

theorem stepV1_extend_ordered {st : EncStV1} {l txt : Str} (hn : st.inList = some .ordered)
    (hm : matchOrdered (trim l) = some txt) :
    stepV1 st l = ⟨pushLast st.adfContent (adfListItem txt), some .ordered⟩ := by
  obtain ⟨hh2, hh1⟩ := not_heading_of_ordered hm
  have hLL : isListLine (trim l) = true := by rw [isListLine, hm]; rfl
  rw [stepV1]
  simp only [hh1, hh2, hm, hLL]
  simp [hn]

theorem stepV1_extend_bullet {st : EncStV1} {l txt : Str} (hn : st.inList = some .bullet)
    (hm : matchBullet (trim l) = some txt) :
    stepV1 st l = ⟨pushLast st.adfContent (adfListItem txt), some .bullet⟩ := by
  obtain ⟨hh2, hh1⟩ := not_heading_of_bullet hm
  have hO := matchOrdered_of_bullet hm
  have hLL : isListLine (trim l) = true := by rw [isListLine, hm]; simp
  rw [stepV1]
  simp only [hh1, hh2, hm, hO, hLL]
  simp [hn]

/-- The V1 loop invariant: while `inList` is set, the last emitted block
is a list of that kind with at least one item (so the in-place push at
line 624/635 of actions.ts is well-defined). -/
def InvV1 (st : EncStV1) : Prop :=
  ∀ k, st.inList = some k →
    ∃ pre items, items ≠ [] ∧ st.adfContent = pre ++ [adfList k items]

theorem stepV1_preserves_inv {st : EncStV1} (l : Str) (h : InvV1 st) : InvV1 (stepV1 st l) := by
  cases hm : matchOrdered (trim l) with
  | some txt =>
    by_cases hk : st.inList = some .ordered
    · rw [stepV1_extend_ordered hk hm]
      intro k hkk
      obtain ⟨pre, items, hne, hct⟩ := h .ordered hk
      cases hkk
      exact ⟨pre, items ++ [adfListItem txt], by simp, by rw [hct, pushLast_concat]⟩
    · rw [stepV1_new_ordered hk hm]
      intro k hkk
      cases hkk
      exact ⟨st.adfContent, [adfListItem txt], by simp, rfl⟩
  | none =>
    cases hb : matchBullet (trim l) with
    | some txt =>
      by_cases hk : st.inList = some .bullet
      · rw [stepV1_extend_bullet hk hb]
        intro k hkk
        obtain ⟨pre, items, hne, hct⟩ := h .bullet hk
        cases hkk
        exact ⟨pre, items ++ [adfListItem txt], by simp, by rw [hct, pushLast_concat]⟩
      · rw [stepV1_new_bullet hk hb]
        intro k hkk
        cases hkk
        exact ⟨st.adfContent, [adfListItem txt], by simp, rfl⟩
    | none =>
      have hL : isListLine (trim l) = false := by rw [isListLine, hm, hb]; rfl
      intro k hkk
      rw [stepV1_closes_list hL] at hkk
      cases hkk

theorem runLinesV1_inv (lines : List Str) : InvV1 (runLinesV1 lines) := by
  rw [runLinesV1]
  have hgen : ∀ (ls : List Str) (st : EncStV1), InvV1 st → InvV1 (ls.foldl stepV1 st) := by
    intro ls
    induction ls with
    | nil => intro st h; exact h
    | cons x xs ih => intro st h; exact ih _ (stepV1_preserves_inv x h)
  exact hgen _ _ (by intro k hk; cases hk)

/-- The two list-line classifications, indexed by list kind. -/
def matchList : ListKind → Str → Option Str
  | .ordered => matchOrdered
  | .bullet => matchBullet

/-! ### V2 encoder step lemmas -/

theorem stepV2_blank {st : EncStV2} {l : Str} (h : trim l = []) : stepV2 st l = st := by
  rw [stepV2]
  simp only [h]
  have h1 : startsWith [] "## ".data = false := rfl
  have h2 : startsWith [] "# ".data = false := rfl
  have h3 : matchOrdered [] = none := rfl
  have h4 : matchBullet [] = none := rfl
  simp [h1, h2, h3, h4]

theorem stepV2_closes_list {st : EncStV2} {l : Str} (hop : st.inList = true)
    (hne : trim l ≠ []) (h : isListLine (trim l) = false) :
    (stepV2 st l).inList = false ∧ (stepV2 st l).listType = none ∧
      (stepV2 st l).currentListItems = [] := by
  have hM : matchOrdered (trim l) = none := by
    cases hm : matchOrdered (trim l) with
    | none => rfl
    | some t => rw [isListLine, hm] at h; simp at h
  have hB : matchBullet (trim l) = none := by
    cases hb : matchBullet (trim l) with
    | none => rfl
    | some t => rw [isListLine, hb] at h; simp at h
  rw [stepV2]
  simp only [hM, hB]
  split_ifs <;> simp_all [flushList]

theorem stepV2_group {st : EncStV2} {l txt : Str} {k : ListKind} (hop : st.inList = true)
    (hty : st.listType = some k) (hm : matchList k (trim l) = some txt) :
    stepV2 st l = { st with currentListItems := st.currentListItems ++ [adfListItem txt] } := by
  cases k with
  | ordered =>
    have hmo : matchOrdered (trim l) = some txt := hm
    obtain ⟨hh2, hh1⟩ := not_heading_of_ordered hmo
    rw [stepV2]
    simp only [hh1, hh2, hmo]
    simp [hop, hty]
  | bullet =>
    have hmb : matchBullet (trim l) = some txt := hm
    obtain ⟨hh2, hh1⟩ := not_heading_of_bullet hmb
    have hO := matchOrdered_of_bullet hmb
    rw [stepV2]
    simp only [hh1, hh2, hmb, hO]
    simp [hop, hty]

theorem stepV2_switch {st : EncStV2} {l txt : Str} {k k2 : ListKind} (hop : st.inList = true)
    (hty : st.listType = some k) (hne : k2 ≠ k) (hm : matchList k2 (trim l) = some txt) :
    stepV2 st l = ⟨(flushList st).adfContent, true, some k2, [adfListItem txt]⟩ := by
  have hkk : k ≠ k2 := fun h => hne h.symm
  cases k2 with
  | ordered =>
    have hmo : matchOrdered (trim l) = some txt := hm
    obtain ⟨hh2, hh1⟩ := not_heading_of_ordered hmo
    rw [stepV2]
    simp only [hh1, hh2, hmo]
    simp [hop, hty, hkk, flushList]
  | bullet =>
    have hmb : matchBullet (trim l) = some txt := hm
    obtain ⟨hh2, hh1⟩ := not_heading_of_bullet hmb
    have hO := matchOrdered_of_bullet hmb
    rw [stepV2]
    simp only [hh1, hh2, hmb, hO]
    simp [hop, hty, hkk, flushList]

/-! ### Claim C5 -/

/-- C5 (amended): in the actions.ts encoder (V1), consecutive same-kind
list lines extend the one open list node in place, and any line that
fails the list-prefix match — blank, heading, or plain paragraph —
closes the open list, so that a following same-kind list line starts a
new single-item list node.  In the part_003 encoder (V2), same-kind
lines are likewise grouped into the pending list, and a heading or a
non-blank non-list line closes the open list, but a blank line is a
no-op that leaves the open list open (so two same-kind list lines
separated only by a blank line merge into one list node there).  In
both evolutions, a list line of the *other* kind while a list is open
closes the open list and starts a new single-item list of the new
kind. -/
theorem c5_list_grouping_amended :
    (∀ (lines : List Str) (l txt : Str) (k : ListKind),
      (runLinesV1 lines).inList = some k →
      matchList k (trim l) = some txt →
      ∃ pre items, items ≠ [] ∧
        (runLinesV1 lines).adfContent = pre ++ [adfList k items] ∧
        (runLinesV1 (lines ++ [l])).adfContent
          = pre ++ [adfList k (items ++ [adfListItem txt])]) ∧
    (∀ (st : EncStV1) (l : Str), isListLine (trim l) = false →
      (stepV1 st l).inList = none) ∧
    (∀ (st : EncStV1) (sep l txt : Str) (k : ListKind),
      isListLine (trim sep) = false →
      matchList k (trim l) = some txt →
      (stepV1 (stepV1 st sep) l).adfContent
        = (stepV1 st sep).adfContent ++ [adfList k [adfListItem txt]]) ∧
    (∀ (st : EncStV2) (l txt : Str) (k : ListKind),
      st.inList = true → st.listType = some k → matchList k (trim l) = some txt →
      stepV2 st l = { st with currentListItems := st.currentListItems ++ [adfListItem txt] }) ∧
    (∀ (st : EncStV2) (l : Str), st.inList = true → trim l ≠ [] →
      isListLine (trim l) = false →
      (stepV2 st l).inList = false ∧ (stepV2 st l).listType = none ∧
        (stepV2 st l).currentListItems = []) ∧
    (∀ (st : EncStV2) (l : Str), trim l = [] → stepV2 st l = st) ∧
    (∀ (st : EncStV1) (l txt : Str) (k k2 : ListKind),
      st.inList = some k → k2 ≠ k → matchList k2 (trim l) = some txt →
      stepV1 st l = ⟨st.adfContent ++ [adfList k2 [adfListItem txt]], some k2⟩) ∧
    (∀ (st : EncStV2) (l txt : Str) (k k2 : ListKind),
      st.inList = true → st.listType = some k → k2 ≠ k →
      matchList k2 (trim l) = some txt →
      stepV2 st l = ⟨(flushList st).adfContent, true, some k2, [adfListItem txt]⟩ ∧
      (st.currentListItems ≠ [] →
        (flushList st).adfContent = st.adfContent ++ [adfList k st.currentListItems])) := by
  refine ⟨?_, ?_, ?_, ?_, ?_, ?_, ?_, ?_⟩
  · intro lines l txt k hin hm
    obtain ⟨pre, items, hne, hct⟩ := runLinesV1_inv lines k hin
    refine ⟨pre, items, hne, hct, ?_⟩
    have happ : runLinesV1 (lines ++ [l]) = stepV1 (runLinesV1 lines) l := by
      rw [runLinesV1, runLinesV1, List.foldl_append]
      rfl
    rw [happ]
    cases k with
    | ordered =>
      rw [stepV1_extend_ordered hin hm]
      show pushLast (runLinesV1 lines).adfContent (adfListItem txt) = _
      rw [hct, pushLast_concat]
    | bullet =>
      rw [stepV1_extend_bullet hin hm]
      show pushLast (runLinesV1 lines).adfContent (adfListItem txt) = _
      rw [hct, pushLast_concat]
  · intro st l h
    exact stepV1_closes_list h
  · intro st sep l txt k hsep hm
    have h0 : (stepV1 st sep).inList = none := stepV1_closes_list hsep
    cases k with
    | ordered =>
      rw [stepV1_new_ordered (by rw [h0]; intro hc; cases hc) hm]
    | bullet =>
      rw [stepV1_new_bullet (by rw [h0]; intro hc; cases hc) hm]
  · intro st l txt k hop hty hm
    exact stepV2_group hop hty hm
  · intro st l hop hne h
    exact stepV2_closes_list hop hne h
  · intro st l h
    exact stepV2_blank h
  · intro st l txt k k2 hin hne hm
    cases k2 with
    | ordered =>
      refine stepV1_new_ordered ?_ hm
      rw [hin]
      intro hc
      injection hc with hc2
      exact hne hc2.symm
    | bullet =>
      refine stepV1_new_bullet ?_ hm
      rw [hin]
      intro hc
      injection hc with hc2
      exact hne hc2.symm
  · intro st l txt k k2 hop hty hne hm
    refine ⟨stepV2_switch hop hty hne hm, ?_⟩
    intro hitems
    cases st with
    | mk a b c d =>
      simp only [EncStV2.inList] at hop
      simp only [EncStV2.listType] at hty
      subst hop
      subst hty
      rw [flushList]
      simp only [EncStV2.currentListItems] at hitems ⊢
      simp [List.length_pos, hitems]

/-- Counterexample to C5 as stated: for the input `"1. a\n\n2. b"`,
whose two ordered list lines are separated by a blank line, the
part_003 encoder emits one merged ordered list with both items (the
actions.ts encoder, shown alongside, emits two separate lists). -/
theorem c5_blank_line_merge_counterexample :
    markdownToAdfV2 (some "1. a\n\n2. b".data) =
      some (adfDoc [adfList .ordered [adfListItem "a".data, adfListItem "b".data]]) ∧
    markdownToAdfV1 (some "1. a\n\n2. b".data) =
      some (adfDoc [adfList .ordered [adfListItem "a".data],
                    adfList .ordered [adfListItem "b".data]]) :=
  ⟨rfl, rfl⟩

/-- Witness for `c5_list_grouping_amended`: the separation part of V1 at
the plain separator `"x"` followed by `"2. b"`, the blank no-op part of
V2 at an open-list state, and the V1 kind-switch part at a bullet line
while an ordered list is open. -/
theorem c5_list_grouping_amended_witness :
    (isListLine (trim "x".data) = false ∧
      matchList .ordered (trim "2. b".data) = some "b".data ∧
      (stepV1 (stepV1 ⟨[], some .ordered⟩ "x".data) "2. b".data).adfContent
        = (stepV1 ⟨[], some .ordered⟩ "x".data).adfContent
          ++ [adfList .ordered [adfListItem "b".data]]) ∧
    (trim " ".data = [] ∧
      stepV2 ⟨[], true, some .ordered, [adfListItem "a".data]⟩ " ".data
        = ⟨[], true, some .ordered, [adfListItem "a".data]⟩) ∧
    (ListKind.bullet ≠ ListKind.ordered ∧
      matchList .bullet (trim "- c".data) = some "c".data ∧
      stepV1 ⟨[], some .ordered⟩ "- c".data
        = ⟨[] ++ [adfList .bullet [adfListItem "c".data]], some .bullet⟩) :=
  ⟨⟨by decide, by decide,
    c5_list_grouping_amended.2.2.1 ⟨[], some .ordered⟩ "x".data "2. b".data "b".data .ordered
      (by decide) (by decide)⟩,
   ⟨by decide,
    c5_list_grouping_amended.2.2.2.2.2.1 ⟨[], true, some .ordered, [adfListItem "a".data]⟩
      " ".data (by decide)⟩,
   ⟨by decide, by decide,
    c5_list_grouping_amended.2.2.2.2.2.2.1 ⟨[], some .ordered⟩ "- c".data "c".data
      .ordered .bullet rfl (by decide) (by decide)⟩⟩

/-! ### Claim C1 -/

/-- A draft tree of shape Epic→[Story→[Sub-task]]. -/
def c1Tree (se ss su de ds du : Str) : DraftTicket :=
  .mk .epic se de none none
    [.mk .story ss ds none none
      [.mk .subtask su du none none []]]

/-- C1 (amended): for every Epic→[Story→[Sub-task]] draft tree whose
three creations succeed with keys `k1`,`k2`,`k3`, both orchestrator
evolutions invoke the collaborator in pre-order (Epic, Story,
Sub-task) and create the three tickets in that order; the Epic's call
carries no parent/epic context; the Story's call carries **no** epic
context — the collaborator payload has no epic-link field at all, the
actions.ts evolution passes the Epic's key only as the parent-key
argument, which is dropped from the payload because a Story is not a
Sub-task, and the part_003 evolution passes the Story no key at all —
and the Sub-task's call carries the Story's key `k2` as parent
context in both the argument and the payload. -/
theorem c1_preorder_trace_amended (stub : Stub) (projectId : Str)
    (se ss su de ds du : Str) (k1 k2 k3 : Str)
    (h0 : stub 0 = .ok k1) (h1 : stub 1 = .ok k2) (h2 : stub 2 = .ok k3) (hk2 : k2 ≠ []) :
    ((createTicketsRecursivelyV1 stub projectId [c1Tree se ss su de ds du] none initOrchSt).calls.map
        (fun c => (c.issuetype, c.argParentKey, c.parent))
      = [("Epic".data, none, none), ("Story".data, some k1, none),
         ("Sub-task".data, some k2, some k2)]) ∧
    ((createTicketsRecursivelyV1 stub projectId [c1Tree se ss su de ds du] none
        initOrchSt).createdTicketsResult.map (fun c => (c.key, c.summary))
      = [(k1, se), (k2, ss), (k3, su)]) ∧
    ((createTicketsRecursivelyV2 stub projectId [c1Tree se ss su de ds du] none initOrchSt).calls.map
        (fun c => (c.issuetype, c.argParentKey, c.parent))
      = [("Epic".data, none, none), ("Story".data, none, none),
         ("Sub-task".data, some k2, some k2)]) ∧
    ((createTicketsRecursivelyV2 stub projectId [c1Tree se ss su de ds du] none
        initOrchSt).createdTicketsResult.map (fun c => (c.key, c.summary))
      = [(k1, se), (k2, ss), (k3, su)]) := by
  refine ⟨?_, ?_, ?_, ?_⟩ <;>
  · simp only [c1Tree, createTicketsRecursivelyV1, createTicketNodeV1, createSingleTicketV1,
      createTicketsRecursivelyV2, createTicketNodeV2, createSingleTicketV2,
      initOrchSt, List.length_nil, List.length_cons, List.nil_append, List.append_nil, h0]
    simp only [List.length_nil, List.length_cons, List.nil_append, List.cons_append,
      List.singleton_append, List.length_append, h1]
    simp [h2, buildCallV1, buildCallV2, payloadParent, TicketType.name, hk2,
      DraftTicket.children, DraftTicket.summary, DraftTicket.type]

/-- Counterexample to C1 as stated: with all creations succeeding, the
Story's call (index 1) receives no epic context in either evolution —
in part_003 the orchestrator passes it no key at all, and in both
evolutions the request payload sent to the collaborator carries no
parent or epic link for the Story. -/
theorem c1_no_epic_context_counterexample :
    ((createTicketsRecursivelyV2 (fun n => .ok (Nat.repr n).data) "P".data
        [c1Tree "E".data "S".data "T".data "d".data "d".data "d".data] none
        initOrchSt).calls.map (fun c => c.argParentKey)).get? 1 = some none ∧
    ((createTicketsRecursivelyV1 (fun n => .ok (Nat.repr n).data) "P".data
        [c1Tree "E".data "S".data "T".data "d".data "d".data "d".data] none
        initOrchSt).calls.map (fun c => c.parent)).get? 1 = some none :=
  ⟨by decide, by decide⟩

/-- Witness for `c1_preorder_trace_amended` at a concrete stub and tree. -/
theorem c1_preorder_trace_amended_witness :
    ((fun n => if n = 0 then .ok "EP-1".data
       else if n = 1 then .ok "ST-2".data else .ok "SB-3".data : Stub) 0
        = Except.ok "EP-1".data) ∧
    ("ST-2".data ≠ []) ∧
    ((createTicketsRecursivelyV2
        (fun n => if n = 0 then .ok "EP-1".data
          else if n = 1 then .ok "ST-2".data else .ok "SB-3".data) "P".data
        [c1Tree "E".data "S".data "T".data "d".data "d".data "d".data] none initOrchSt).calls.map
        (fun c => (c.issuetype, c.argParentKey, c.parent))
      = [("Epic".data, none, none), ("Story".data, none, none),
         ("Sub-task".data, some "ST-2".data, some "ST-2".data)]) :=
  ⟨rfl, by decide,
   (c1_preorder_trace_amended
      (fun n => if n = 0 then .ok "EP-1".data
        else if n = 1 then .ok "ST-2".data else .ok "SB-3".data) "P".data
      "E".data "S".data "T".data "d".data "d".data "d".data
      "EP-1".data "ST-2".data "SB-3".data
      rfl rfl rfl (by decide)).2.2.1⟩

/-! ### Claim C4 -/

/-- C4 (amended): neither orchestrator evolution guards a `Sub-task`
without a resolvable parent key — the external create call **is**
attempted, with no parent link in the payload.  The run is a total
function (nothing is thrown): on collaborator failure the per-node
error message is recorded like any other creation failure, and on
collaborator success the ticket is even recorded as created. -/
theorem c4_subtask_no_parent_amended (stub : Stub) (projectId : Str)
    (sm de : Str) (ac si : Option Str) (s : OrchSt) :
    (buildCallV1 projectId (.mk .subtask sm de ac si []) none).parent = none ∧
    (buildCallV2 projectId (.mk .subtask sm de ac si []) none).parent = none ∧
    (∀ e, stub s.calls.length = .error e →
      createTicketNodeV1 stub projectId (.mk .subtask sm de ac si []) none s =
        { s with calls := s.calls ++ [buildCallV1 projectId (.mk .subtask sm de ac si []) none],
                 errorMessages := s.errorMessages
                   ++ [failMsg (.mk .subtask sm de ac si []) e] } ∧
      createTicketNodeV2 stub projectId (.mk .subtask sm de ac si []) none s =
        { s with calls := s.calls ++ [buildCallV2 projectId (.mk .subtask sm de ac si []) none],
                 errorMessages := s.errorMessages
                   ++ [failMsg (.mk .subtask sm de ac si []) e] }) ∧
    (∀ k, stub s.calls.length = .ok k →
      createTicketNodeV1 stub projectId (.mk .subtask sm de ac si []) none s =
        { s with calls := s.calls ++ [buildCallV1 projectId (.mk .subtask sm de ac si []) none],
                 createdTicketsResult := s.createdTicketsResult
                   ++ [⟨k, sm, "Sub-task".data⟩] } ∧
      createTicketNodeV2 stub projectId (.mk .subtask sm de ac si []) none s =
        { s with calls := s.calls ++ [buildCallV2 projectId (.mk .subtask sm de ac si []) none],
                 createdTicketsResult := s.createdTicketsResult
                   ++ [⟨k, sm, "Sub-task".data⟩] }) := by
  refine ⟨rfl, rfl, ?_, ?_⟩
  · intro e he
    constructor <;>
      simp [createTicketNodeV1, createTicketNodeV2, createSingleTicketV1, createSingleTicketV2, he]
  · intro k hk
    constructor <;>
    · simp [createTicketNodeV1, createTicketNodeV2, createSingleTicketV1, createSingleTicketV2,
        hk, DraftTicket.summary, DraftTicket.children, TicketType.name, DraftTicket.type]

/-- Counterexample to C4 as stated: for a parentless `Sub-task` draft,
both evolutions invoke the external create call (one call is recorded)
and record **no** creation failure when the collaborator accepts it. -/
theorem c4_call_attempted_counterexample :
    (createTicketsRecursivelyV1 (fun _ => .ok "K-1".data) "P".data
        [.mk .subtask "S".data "d".data none none []] none initOrchSt).calls.length = 1 ∧
    (createTicketsRecursivelyV1 (fun _ => .ok "K-1".data) "P".data
        [.mk .subtask "S".data "d".data none none []] none initOrchSt).errorMessages = [] ∧
    (createTicketsRecursivelyV2 (fun _ => .ok "K-1".data) "P".data
        [.mk .subtask "S".data "d".data none none []] none initOrchSt).calls.length = 1 ∧
    (createTicketsRecursivelyV2 (fun _ => .ok "K-1".data) "P".data
        [.mk .subtask "S".data "d".data none none []] none initOrchSt).errorMessages = [] :=
  ⟨by decide, by decide, by decide, by decide⟩

/-- Witness for `c4_subtask_no_parent_amended` at a failing stub. -/
theorem c4_subtask_no_parent_amended_witness :
    ((fun _ => .error "400 - no parent".data : Stub) (initOrchSt.calls.length)
       = Except.error "400 - no parent".data) ∧
    (createTicketNodeV1 (fun _ => .error "400 - no parent".data) "P".data
        (.mk .subtask "S".data "d".data none none []) none initOrchSt =
      { initOrchSt with
          calls := initOrchSt.calls
            ++ [buildCallV1 "P".data (.mk .subtask "S".data "d".data none none []) none],
          errorMessages := initOrchSt.errorMessages
            ++ [failMsg (.mk .subtask "S".data "d".data none none [])
                  "400 - no parent".data] }) :=
  ⟨rfl,
   ((c4_subtask_no_parent_amended (fun _ => .error "400 - no parent".data) "P".data
      "S".data "d".data none none initOrchSt).2.2.1 "400 - no parent".data rfl).1⟩

/-! ### Claim C10 -/

/-- C10: the acceptance criteria are never a separate field of the
collaborator payload (`CallRec`, which mirrors the payload built by
both evolutions, has no such field).  The actions.ts evolution ignores
`acceptanceCriteria` entirely — its payload is invariant under changing
it — while the part_003 evolution appends
`"\n\nAcceptance Criteria:\n" + trimmed criteria` to the description
body before encoding whenever the criteria are present and non-blank,
and ignores absent or blank criteria. -/
theorem c10_acceptance_criteria_handling :
    (∀ (projectId sm de : Str) (ty : TicketType) (ac ac2 si : Option Str)
       (ch : List DraftTicket) (pk : Option Str),
      buildCallV1 projectId (.mk ty sm de ac si ch) pk
        = buildCallV1 projectId (.mk ty sm de ac2 si ch) pk) ∧
    (∀ (projectId sm de ac : Str) (ty : TicketType) (si : Option Str)
       (ch : List DraftTicket) (pk : Option Str), ac ≠ [] → trim ac ≠ [] →
      (buildCallV2 projectId (.mk ty sm de (some ac) si ch) pk).description
        = descFieldV2 (textToAdfV2 (some (trim
            (de ++ ("\n\nAcceptance Criteria:\n".data ++ trim ac)))))) ∧
    (∀ (projectId sm de : Str) (ty : TicketType) (si : Option Str)
       (ch : List DraftTicket) (pk : Option Str),
      (buildCallV2 projectId (.mk ty sm de none si ch) pk).description
        = descFieldV2 (textToAdfV2 (some (trim de)))) ∧
    (∀ (projectId sm de ac : Str) (ty : TicketType) (si : Option Str)
       (ch : List DraftTicket) (pk : Option Str), trim ac = [] →
      (buildCallV2 projectId (.mk ty sm de (some ac) si ch) pk).description
        = descFieldV2 (textToAdfV2 (some (trim de)))) := by
  refine ⟨?_, ?_, ?_, ?_⟩
  · intro projectId sm de ty ac ac2 si ch pk
    rfl
  · intro projectId sm de ac ty si ch pk h1 h2
    simp [buildCallV2, combinedDescriptionV2, DraftTicket.description,
      DraftTicket.acceptanceCriteria, h1, h2]
  · intro projectId sm de ty si ch pk
    simp [buildCallV2, combinedDescriptionV2, DraftTicket.description,
      DraftTicket.acceptanceCriteria]
  · intro projectId sm de ac ty si ch pk h
    simp [buildCallV2, combinedDescriptionV2, DraftTicket.description,
      DraftTicket.acceptanceCriteria, h]

/-- Witness for `c10_acceptance_criteria_handling` at concrete tickets. -/
theorem c10_acceptance_criteria_handling_witness :
    ("AC one".data ≠ [] ∧ trim "AC one".data ≠ []) ∧
    (buildCallV2 "P".data
        (.mk .story "S".data "body".data (some "AC one".data) none []) none).description
      = descFieldV2 (textToAdfV2 (some (trim
          ("body".data ++ ("\n\nAcceptance Criteria:\n".data ++ trim "AC one".data))))) :=
  ⟨⟨by decide, by decide⟩,
   c10_acceptance_criteria_handling.2.1 "P".data "S".data "body".data "AC one".data
     .story none [] none (by decide) (by decide)⟩

/-! ### Monotonicity of the orchestrator state -/

theorem sizeOf_pos_list (ts : List DraftTicket) : 1 ≤ sizeOf ts := by
  cases ts <;> simp <;> omega

theorem sizeOf_pos_ticket (t : DraftTicket) : 1 ≤ sizeOf t := by
  cases t; simp; omega

theorem monoV1_aux (stub : Stub) (projectId : Str) : ∀ (n : Nat),
    (∀ (t : DraftTicket) (pk : Option Str) (s : OrchSt), sizeOf t ≤ n →
      s.createdTicketsResult.length
          ≤ (createTicketNodeV1 stub projectId t pk s).createdTicketsResult.length ∧
      s.errorMessages.length
          ≤ (createTicketNodeV1 stub projectId t pk s).errorMessages.length) ∧
    (∀ (ts : List DraftTicket) (pk : Option Str) (s : OrchSt), sizeOf ts ≤ n →
      s.createdTicketsResult.length
          ≤ (createTicketsRecursivelyV1 stub projectId ts pk s).createdTicketsResult.length ∧
      s.errorMessages.length
          ≤ (createTicketsRecursivelyV1 stub projectId ts pk s).errorMessages.length) := by
  intro n
  induction n with
  | zero =>
    constructor
    · intro t pk s h
      exact absurd h (by have := sizeOf_pos_ticket t; omega)
    · intro ts pk s h
      exact absurd h (by have := sizeOf_pos_list ts; omega)
  | succ k ih =>
    constructor
    · intro t pk s hsz
      cases t with
      | mk ty sm de ac si ch =>
        rw [createTicketNodeV1]
        cases hst : stub s.calls.length with
        | ok key =>
          simp only [createSingleTicketV1, hst]
          have hch : sizeOf ch ≤ k := by
            simp at hsz
            have := sizeOf_pos_list ch
            omega
          by_cases hc : ch.length > 0
          · simp only [if_pos hc]
            have h2 := ih.2 ch (some key) { s with
              calls := s.calls ++ [buildCallV1 projectId (DraftTicket.mk ty sm de ac si ch) pk],
              createdTicketsResult := s.createdTicketsResult
                ++ [⟨key, (DraftTicket.mk ty sm de ac si ch).summary,
                     (DraftTicket.mk ty sm de ac si ch).type.name⟩] } hch
            simp at h2 ⊢
            omega
          · simp only [if_neg hc]
            simp
        | error e =>
          simp only [createSingleTicketV1, hst]
          simp
    · intro ts pk s hsz
      cases ts with
      | nil => simp [createTicketsRecursivelyV1]
      | cons t rest =>
        rw [createTicketsRecursivelyV1]
        have ht : sizeOf t ≤ k := by
          simp at hsz
          have := sizeOf_pos_list rest
          omega
        have hrest : sizeOf rest ≤ k := by
          simp at hsz
          have := sizeOf_pos_ticket t
          omega
        have h1 := ih.1 t pk s ht
        have h2 := ih.2 rest pk (createTicketNodeV1 stub projectId t pk s) hrest
        omega

theorem monoV1 (stub : Stub) (projectId : Str) (ts : List DraftTicket)
    (pk : Option Str) (s : OrchSt) :
    s.createdTicketsResult.length
        ≤ (createTicketsRecursivelyV1 stub projectId ts pk s).createdTicketsResult.length ∧
    s.errorMessages.length
        ≤ (createTicketsRecursivelyV1 stub projectId ts pk s).errorMessages.length :=
  (monoV1_aux stub projectId (sizeOf ts)).2 ts pk s le_rfl

theorem monoV2_aux (stub : Stub) (projectId : Str) : ∀ (n : Nat),
    (∀ (t : DraftTicket) (pk : Option Str) (s : OrchSt), sizeOf t ≤ n →
      s.createdTicketsResult.length
          ≤ (createTicketNodeV2 stub projectId t pk s).createdTicketsResult.length ∧
      s.errorMessages.length
          ≤ (createTicketNodeV2 stub projectId t pk s).errorMessages.length) ∧
    (∀ (ts : List DraftTicket) (pk : Option Str) (s : OrchSt), sizeOf ts ≤ n →
      s.createdTicketsResult.length
          ≤ (createTicketsRecursivelyV2 stub projectId ts pk s).createdTicketsResult.length ∧
      s.errorMessages.length
          ≤ (createTicketsRecursivelyV2 stub projectId ts pk s).errorMessages.length) := by
  intro n
  induction n with
  | zero =>
    constructor
    · intro t pk s h
      exact absurd h (by have := sizeOf_pos_ticket t; omega)
    · intro ts pk s h
      exact absurd h (by have := sizeOf_pos_list ts; omega)
  | succ k ih =>
    constructor
    · intro t pk s hsz
      cases t with
      | mk ty sm de ac si ch =>
        rw [createTicketNodeV2]
        cases hst : stub s.calls.length with
        | ok key =>
          simp only [createSingleTicketV2, hst]
          have hch : sizeOf ch ≤ k := by
            simp at hsz
            have := sizeOf_pos_list ch
            omega
          by_cases hc : ch.length > 0
          · simp only [if_pos hc]
            have h2 := ih.2 ch
              (if (DraftTicket.mk ty sm de ac si ch).type ≠ .epic then some key else none)
              { s with
                calls := s.calls ++ [buildCallV2 projectId (DraftTicket.mk ty sm de ac si ch) pk],
                createdTicketsResult := s.createdTicketsResult
                  ++ [⟨key, (DraftTicket.mk ty sm de ac si ch).summary,
                       (DraftTicket.mk ty sm de ac si ch).type.name⟩] } hch
            simp at h2 ⊢
            omega
          · simp only [if_neg hc]
            simp
        | error e =>
          simp only [createSingleTicketV2, hst]
          simp
    · intro ts pk s hsz
      cases ts with
      | nil => simp [createTicketsRecursivelyV2]
      | cons t rest =>
        rw [createTicketsRecursivelyV2]
        have ht : sizeOf t ≤ k := by
          simp at hsz
          have := sizeOf_pos_list rest
          omega
        have hrest : sizeOf rest ≤ k := by
          simp at hsz
          have := sizeOf_pos_ticket t
          omega
        have h1 := ih.1 t pk s ht
        have h2 := ih.2 rest pk (createTicketNodeV2 stub projectId t pk s) hrest
        omega

theorem monoV2 (stub : Stub) (projectId : Str) (ts : List DraftTicket)
    (pk : Option Str) (s : OrchSt) :
    s.createdTicketsResult.length
        ≤ (createTicketsRecursivelyV2 stub projectId ts pk s).createdTicketsResult.length ∧
    s.errorMessages.length
        ≤ (createTicketsRecursivelyV2 stub projectId ts pk s).errorMessages.length :=
  (monoV2_aux stub projectId (sizeOf ts)).2 ts pk s le_rfl

/-! ### Further orchestrator lemmas -/

theorem nodeV1_error {stub : Stub} {projectId : Str} {t : DraftTicket} {pk : Option Str}
    {s : OrchSt} {e : Str} (he : stub s.calls.length = .error e) :
    createTicketNodeV1 stub projectId t pk s =
      { s with calls := s.calls ++ [buildCallV1 projectId t pk],
               errorMessages := s.errorMessages ++ [failMsg t e] } := by
  cases t with
  | mk ty sm de ac si ch =>
    rw [createTicketNodeV1]
    simp only [createSingleTicketV1, he]

theorem nodeV2_error {stub : Stub} {projectId : Str} {t : DraftTicket} {pk : Option Str}
    {s : OrchSt} {e : Str} (he : stub s.calls.length = .error e) :
    createTicketNodeV2 stub projectId t pk s =
      { s with calls := s.calls ++ [buildCallV2 projectId t pk],
               errorMessages := s.errorMessages ++ [failMsg t e] } := by
  cases t with
  | mk ty sm de ac si ch =>
    rw [createTicketNodeV2]
    simp only [createSingleTicketV2, he]

theorem countDraftTicket_pos (t : DraftTicket) : 1 ≤ countDraftTicket t := by
  cases t with
  | mk ty sm de ac si ch => rw [countDraftTicket]; omega

theorem countAll_eq_zero_iff {ts : List DraftTicket} :
    countAllDraftTickets ts = 0 ↔ ts = [] := by
  cases ts with
  | nil => simp [countAllDraftTickets]
  | cons t rest =>
    rw [countAllDraftTickets]
    have := countDraftTicket_pos t
    constructor
    · intro h; omega
    · intro h; cases h

/-- The first root always contributes at least one outcome (a created
entry or an error message). -/
theorem firstV1_contributes (stub : Stub) (projectId : Str) (t : DraftTicket)
    (rest : List DraftTicket) (pk : Option Str) (s : OrchSt) :
    s.createdTicketsResult.length + s.errorMessages.length
      < (createTicketsRecursivelyV1 stub projectId (t :: rest) pk s).createdTicketsResult.length
        + (createTicketsRecursivelyV1 stub projectId (t :: rest) pk s).errorMessages.length := by
  rw [createTicketsRecursivelyV1]
  have hmono := monoV1 stub projectId rest pk (createTicketNodeV1 stub projectId t pk s)
  have hnode : s.createdTicketsResult.length + s.errorMessages.length
      < (createTicketNodeV1 stub projectId t pk s).createdTicketsResult.length
        + (createTicketNodeV1 stub projectId t pk s).errorMessages.length := by
    cases t with
    | mk ty sm de ac si ch =>
      rw [createTicketNodeV1]
      cases hst : stub s.calls.length with
      | ok key =>
        simp only [createSingleTicketV1, hst]
        by_cases hc : ch.length > 0
        · simp only [if_pos hc]
          have h2 := monoV1 stub projectId ch (some key)
            { s with
              calls := s.calls ++ [buildCallV1 projectId (DraftTicket.mk ty sm de ac si ch) pk],
              createdTicketsResult := s.createdTicketsResult
                ++ [⟨key, (DraftTicket.mk ty sm de ac si ch).summary,
                     (DraftTicket.mk ty sm de ac si ch).type.name⟩] }
          simp at h2 ⊢
          omega
        · simp only [if_neg hc]
          simp
      | error e =>
        simp only [createSingleTicketV1, hst]
        simp
  omega

theorem firstV2_contributes (stub : Stub) (projectId : Str) (t : DraftTicket)
    (rest : List DraftTicket) (pk : Option Str) (s : OrchSt) :
    s.createdTicketsResult.length + s.errorMessages.length
      < (createTicketsRecursivelyV2 stub projectId (t :: rest) pk s).createdTicketsResult.length
        + (createTicketsRecursivelyV2 stub projectId (t :: rest) pk s).errorMessages.length := by
  rw [createTicketsRecursivelyV2]
  have hmono := monoV2 stub projectId rest pk (createTicketNodeV2 stub projectId t pk s)
  have hnode : s.createdTicketsResult.length + s.errorMessages.length
      < (createTicketNodeV2 stub projectId t pk s).createdTicketsResult.length
        + (createTicketNodeV2 stub projectId t pk s).errorMessages.length := by
    cases t with
    | mk ty sm de ac si ch =>
      rw [createTicketNodeV2]
      cases hst : stub s.calls.length with
      | ok key =>
        simp only [createSingleTicketV2, hst]
        by_cases hc : ch.length > 0
        · simp only [if_pos hc]
          have h2 := monoV2 stub projectId ch
            (if (DraftTicket.mk ty sm de ac si ch).type ≠ .epic then some key else none)
            { s with
              calls := s.calls ++ [buildCallV2 projectId (DraftTicket.mk ty sm de ac si ch) pk],
              createdTicketsResult := s.createdTicketsResult
                ++ [⟨key, (DraftTicket.mk ty sm de ac si ch).summary,
                     (DraftTicket.mk ty sm de ac si ch).type.name⟩] }
          simp at h2 ⊢
          omega
        · simp only [if_neg hc]
          simp
      | error e =>
        simp only [createSingleTicketV2, hst]
        simp
  omega

/-- Appending root lists composes sequentially (V2 list level). -/
theorem runListV2_append (stub : Stub) (projectId : Str) (a b : List DraftTicket)
    (pk : Option Str) (s : OrchSt) :
    createTicketsRecursivelyV2 stub projectId (a ++ b) pk s
      = createTicketsRecursivelyV2 stub projectId b pk
          (createTicketsRecursivelyV2 stub projectId a pk s) := by
  induction a generalizing s with
  | nil => rfl
  | cons t rest ih =>
    rw [List.cons_append, createTicketsRecursivelyV2, createTicketsRecursivelyV2]
    exact ih _

/-- The batch loop is the same as one sequential pass over all roots. -/
theorem runBatchesV2_eq (stub : Stub) (projectId : Str) (ts : List DraftTicket) (s : OrchSt) :
    runBatchesV2 stub projectId ts s
      = createTicketsRecursivelyV2 stub projectId ts none s := by
  rw [runBatchesV2]
  have hgen : ∀ (fuel : Nat) (l : List DraftTicket) (st : OrchSt), l.length ≤ fuel →
      runBatchesV2.go stub projectId fuel l st
        = createTicketsRecursivelyV2 stub projectId l none st := by
    intro fuel
    induction fuel with
    | zero =>
      intro l st h
      cases l with
      | nil => rfl
      | cons x xs => simp at h
    | succ k ih =>
      intro l st h
      cases l with
      | nil => rfl
      | cons x xs =>
        rw [runBatchesV2.go]
        rw [ih _ _ (by simp at h ⊢; omega)]
        rw [← runListV2_append]
        rw [List.take_append_drop]
  exact hgen _ _ _ le_rfl

/-- When no error is recorded, the V2 walk creates exactly one ticket
per draft node. -/
theorem fullV2_aux (stub : Stub) (projectId : Str) : ∀ (n : Nat),
    (∀ (t : DraftTicket) (pk : Option Str) (s : OrchSt), sizeOf t ≤ n →
      (createTicketNodeV2 stub projectId t pk s).errorMessages.length
          = s.errorMessages.length →
      (createTicketNodeV2 stub projectId t pk s).createdTicketsResult.length
          = s.createdTicketsResult.length + countDraftTicket t) ∧
    (∀ (ts : List DraftTicket) (pk : Option Str) (s : OrchSt), sizeOf ts ≤ n →
      (createTicketsRecursivelyV2 stub projectId ts pk s).errorMessages.length
          = s.errorMessages.length →
      (createTicketsRecursivelyV2 stub projectId ts pk s).createdTicketsResult.length
          = s.createdTicketsResult.length + countAllDraftTickets ts) := by
  intro n
  induction n with
  | zero =>
    constructor
    · intro t pk s h
      exact absurd h (by have := sizeOf_pos_ticket t; omega)
    · intro ts pk s h
      exact absurd h (by have := sizeOf_pos_list ts; omega)
  | succ k ih =>
    constructor
    · intro t pk s hsz
      cases t with
      | mk ty sm de ac si ch =>
        rw [createTicketNodeV2, countDraftTicket]
        cases hst : stub s.calls.length with
        | ok key =>
          simp only [createSingleTicketV2, hst]
          have hch : sizeOf ch ≤ k := by
            simp at hsz
            have := sizeOf_pos_list ch
            omega
          by_cases hc : ch.length > 0
          · simp only [if_pos hc]
            intro herr
            have h2 := ih.2 ch
              (if (DraftTicket.mk ty sm de ac si ch).type ≠ .epic then some key else none)
              { s with
                calls := s.calls ++ [buildCallV2 projectId (DraftTicket.mk ty sm de ac si ch) pk],
                createdTicketsResult := s.createdTicketsResult
                  ++ [⟨key, (DraftTicket.mk ty sm de ac si ch).summary,
                       (DraftTicket.mk ty sm de ac si ch).type.name⟩] } hch
            simp at h2 herr ⊢
            rw [h2 herr]
            omega
          · simp only [if_neg hc]
            intro _
            simp
        | error e =>
          simp only [createSingleTicketV2, hst]
          intro herr
          simp at herr
    · intro ts pk s hsz
      cases ts with
      | nil =>
        intro _
        simp [createTicketsRecursivelyV2, countAllDraftTickets]
      | cons t rest =>
        rw [createTicketsRecursivelyV2, countAllDraftTickets]
        intro herr
        have ht : sizeOf t ≤ k := by
          simp at hsz
          have := sizeOf_pos_list rest
          omega
        have hrest : sizeOf rest ≤ k := by
          simp at hsz
          have := sizeOf_pos_ticket t
          omega
        have hm1 := (monoV2_aux stub projectId (sizeOf t)).1 t pk s le_rfl
        have hm2 := monoV2 stub projectId rest pk (createTicketNodeV2 stub projectId t pk s)
        have herrNode : (createTicketNodeV2 stub projectId t pk s).errorMessages.length
            = s.errorMessages.length := by omega
        have herrRest : (createTicketsRecursivelyV2 stub projectId rest pk
            (createTicketNodeV2 stub projectId t pk s)).errorMessages.length
            = (createTicketNodeV2 stub projectId t pk s).errorMessages.length := by omega
        have h1 := ih.1 t pk s ht herrNode
        have h2 := ih.2 rest pk (createTicketNodeV2 stub projectId t pk s) hrest herrRest
        omega

/-! ### Claim C3 -/

/-- C3: if the external call fails for a node, both evolutions record
that node's error, never call into its subtree (exactly one call — the
node's own — is added and no created entries come from that branch),
continue with the remaining sibling branches from that state, and the
final aggregate has `success = false`. -/
theorem c3_failure_skips_subtree :
    (∀ (stub : Stub) (projectId : Str) (t : DraftTicket) (rest : List DraftTicket)
       (pk : Option Str) (s : OrchSt) (e : Str),
      stub s.calls.length = .error e →
      createTicketsRecursivelyV1 stub projectId (t :: rest) pk s =
        createTicketsRecursivelyV1 stub projectId rest pk
          { s with calls := s.calls ++ [buildCallV1 projectId t pk],
                   errorMessages := s.errorMessages ++ [failMsg t e] }) ∧
    (∀ (stub : Stub) (projectId : Str) (t : DraftTicket) (rest : List DraftTicket)
       (pk : Option Str) (s : OrchSt) (e : Str),
      stub s.calls.length = .error e →
      createTicketsRecursivelyV2 stub projectId (t :: rest) pk s =
        createTicketsRecursivelyV2 stub projectId rest pk
          { s with calls := s.calls ++ [buildCallV2 projectId t pk],
                   errorMessages := s.errorMessages ++ [failMsg t e] }) ∧
    (∀ (stub : Stub) (projectId : Str) (tickets : List DraftTicket),
      (createTicketsRecursivelyV1 stub projectId tickets none initOrchSt).errorMessages ≠ [] →
      (createJiraTicketsActionV1 stub projectId tickets).success = false) ∧
    (∀ (stub : Stub) (projectId : Str) (tickets : List DraftTicket),
      (runBatchesV2 stub projectId tickets initOrchSt).errorMessages ≠ [] →
      (createJiraTicketsActionV2 stub projectId tickets).success = false) := by
  refine ⟨?_, ?_, ?_, ?_⟩
  · intro stub projectId t rest pk s e he
    rw [createTicketsRecursivelyV1, nodeV1_error he]
  · intro stub projectId t rest pk s e he
    rw [createTicketsRecursivelyV2, nodeV2_error he]
  · intro stub projectId tickets herr
    rw [createJiraTicketsActionV1, aggregateV1]
    have hlen : (createTicketsRecursivelyV1 stub projectId tickets none
        initOrchSt).errorMessages.length ≠ 0 := by
      intro hc
      exact herr (List.eq_nil_of_length_eq_zero hc)
    have htk : tickets ≠ [] := by
      intro hc
      subst hc
      exact herr rfl
    split_ifs with h1 h2 h3 h4 h5 <;> simp_all
  · intro stub projectId tickets herr
    rw [createJiraTicketsActionV2, aggregateV2]
    have hlen : (runBatchesV2 stub projectId tickets initOrchSt).errorMessages.length ≠ 0 := by
      intro hc
      exact herr (List.eq_nil_of_length_eq_zero hc)
    have htot : countAllDraftTickets tickets ≠ 0 := by
      intro hc
      have := countAll_eq_zero_iff.1 hc
      subst this
      exact herr rfl
    split_ifs with h1 h2 h3 h4 <;> simp_all

/-- Witness for `c3_failure_skips_subtree`: the stub fails at call
index 1 (the Story of an Epic→[Story→[Sub-task]] tree placed there by
a preceding sibling-free Epic), so the claim's pruning equation holds
at that state. -/
theorem c3_failure_skips_subtree_witness :
    ((fun n => if n = 1 then .error "500 - boom".data
        else .ok "K-1".data : Stub)
      (OrchSt.mk [buildCallV1 "P".data (.mk .epic "E".data "d".data none none []) none]
        [⟨"K-1".data, "E".data, "Epic".data⟩] []).calls.length
      = Except.error "500 - boom".data) ∧
    (createTicketsRecursivelyV1
        (fun n => if n = 1 then .error "500 - boom".data else .ok "K-1".data)
        "P".data
        [.mk .story "S".data "d".data none none [.mk .subtask "T".data "d".data none none []]]
        none
        (OrchSt.mk [buildCallV1 "P".data (.mk .epic "E".data "d".data none none []) none]
          [⟨"K-1".data, "E".data, "Epic".data⟩] []) =
      createTicketsRecursivelyV1
        (fun n => if n = 1 then .error "500 - boom".data else .ok "K-1".data)
        "P".data [] none
        { OrchSt.mk [buildCallV1 "P".data (.mk .epic "E".data "d".data none none []) none]
            [⟨"K-1".data, "E".data, "Epic".data⟩] [] with
          calls := (OrchSt.mk
              [buildCallV1 "P".data (.mk .epic "E".data "d".data none none []) none]
              [⟨"K-1".data, "E".data, "Epic".data⟩] []).calls
            ++ [buildCallV1 "P".data
                  (.mk .story "S".data "d".data none none
                    [.mk .subtask "T".data "d".data none none []]) none],
          errorMessages := []
            ++ [failMsg (.mk .story "S".data "d".data none none
                  [.mk .subtask "T".data "d".data none none []]) "500 - boom".data] }) :=
  ⟨rfl,
   c3_failure_skips_subtree.1
     (fun n => if n = 1 then .error "500 - boom".data else .ok "K-1".data)
     "P".data
     (.mk .story "S".data "d".data none none [.mk .subtask "T".data "d".data none none []])
     [] none
     (OrchSt.mk [buildCallV1 "P".data (.mk .epic "E".data "d".data none none []) none]
       [⟨"K-1".data, "E".data, "Epic".data⟩] [])
     "500 - boom".data rfl⟩

/-! ### Claim C7 -/

/-- C7: in both orchestrator evolutions, the aggregate `success` flag
is true exactly when the traversal recorded zero per-node creation
failures. -/
theorem c7_overall_success_iff_no_failures (stub : Stub) (projectId : Str)
    (tickets : List DraftTicket) :
    ((createJiraTicketsActionV1 stub projectId tickets).success = true ↔
      (createTicketsRecursivelyV1 stub projectId tickets none initOrchSt).errorMessages.length
        = 0) ∧
    ((createJiraTicketsActionV2 stub projectId tickets).success = true ↔
      (runBatchesV2 stub projectId tickets initOrchSt).errorMessages.length = 0) := by
  constructor
  · rw [createJiraTicketsActionV1, aggregateV1]
    split_ifs with h1 h2 h3 h4 h5
    · simp_all
    · simp_all
    · simp_all
    · exfalso
      obtain ⟨hn, hov, htl⟩ := h4
      obtain ⟨t, rest, rfl⟩ : ∃ t rest, tickets = t :: rest := by
        cases tickets with
        | nil => simp at htl
        | cons a b => exact ⟨a, b, rfl⟩
      have hfc := firstV1_contributes stub projectId t rest none initOrchSt
      have hz : initOrchSt.createdTicketsResult.length = 0 := rfl
      have hz2 : initOrchSt.errorMessages.length = 0 := rfl
      rw [hz, hz2] at hfc
      omega
    · have ht : tickets = [] := List.length_eq_zero.1 h5
      subst ht
      show true = true ↔ _
      simp [createTicketsRecursivelyV1, initOrchSt]
    · simp
  · have hfull : (runBatchesV2 stub projectId tickets initOrchSt).errorMessages.length = 0 →
        (runBatchesV2 stub projectId tickets initOrchSt).createdTicketsResult.length
          = countAllDraftTickets tickets := by
      intro h
      rw [runBatchesV2_eq] at h ⊢
      have h0 := (fullV2_aux stub projectId (sizeOf tickets)).2 tickets none initOrchSt le_rfl
      have h1 := h0 (by simpa [initOrchSt] using h)
      simpa [initOrchSt] using h1
    rw [createJiraTicketsActionV2, aggregateV2]
    split_ifs with h1 h2 h3 h4
    · have ht : tickets = [] := countAll_eq_zero_iff.1 h1
      subst ht
      simp [runBatchesV2, runBatchesV2.go, initOrchSt]
    · simp_all
    · obtain ⟨hn, hov⟩ := h3
      simp only [Bool.false_eq_true, false_iff]
      intro hlen
      exact hov ⟨hlen, hfull hlen⟩
    · obtain ⟨hn, hov, htot⟩ := h4
      simp only [Bool.false_eq_true, false_iff]
      intro hlen
      rw [hfull hlen] at hn
      omega
    · simp only [decide_eq_true_eq]
      constructor
      · intro h; exact h.1
      · intro h; exact ⟨h, hfull h⟩

/-! ### Facts about `splitNl` -/

theorem splitNl_ne_nil (s : Str) : splitNl s ≠ [] := by
  cases s with
  | nil => simp [splitNl]
  | cons c rest =>
    rw [splitNl]
    split_ifs
    · simp
    · cases h : splitNl rest <;> simp

theorem splitNl_no_nl (s : Str) : ∀ p ∈ splitNl s, '\n' ∉ p := by
  induction s with
  | nil => intro p hp; simp [splitNl] at hp; simp [hp]
  | cons c rest ih =>
    intro p hp
    rw [splitNl] at hp
    split_ifs at hp with hc
    · rcases List.mem_cons.1 hp with rfl | hmem
      · simp
      · exact ih p hmem
    · cases hsp : splitNl rest with
      | nil => exact absurd hsp (splitNl_ne_nil rest)
      | cons q qs =>
        rw [hsp] at hp
        rcases List.mem_cons.1 hp with rfl | hmem
        · intro hmm
          rcases List.mem_cons.1 hmm with rfl | hmm2
          · exact hc rfl
          · exact ih q (by rw [hsp]; simp) hmm2
        · exact ih p (by rw [hsp]; simp [hmem])

theorem intercalate_splitNl (s : Str) : ['\n'].intercalate (splitNl s) = s := by
  induction s with
  | nil => simp [splitNl, List.intercalate]
  | cons c rest ih =>
    rw [splitNl]
    split_ifs with hc
    · subst hc
      cases hsp : splitNl rest with
      | nil => exact absurd hsp (splitNl_ne_nil rest)
      | cons q qs =>
        rw [hsp] at ih
        simp [List.intercalate] at ih ⊢
        cases qs <;> simp_all [List.intersperse]
    · cases hsp : splitNl rest with
      | nil => exact absurd hsp (splitNl_ne_nil rest)
      | cons q qs =>
        rw [hsp] at ih
        simp [List.intercalate] at ih ⊢
        cases qs <;> simp_all [List.intersperse]

/-! ### The V1 encoder on plain paragraph lines -/

/-- A line that matches none of the markdown prefixes (heading, ordered
list, bullet list) on its trimmed form. -/
def plainLine (l : Str) : Prop :=
  startsWith l "## ".data = false ∧ startsWith l "# ".data = false ∧
    matchOrdered l = none ∧ matchBullet l = none

theorem stepV1_plain {st : EncStV1} {l : Str} (hst : st.inList = none)
    (htr : trim l = l) (hne : l ≠ []) (hp : plainLine l) :
    stepV1 st l = ⟨st.adfContent ++ [adfPara l], none⟩ := by
  obtain ⟨h2, h1, hO, hB⟩ := hp
  rw [stepV1]
  simp only [htr, h1, h2, hO, hB, hst]
  simp [hne, hst]

theorem foldV1_plain : ∀ (lines : List Str) (st : EncStV1), st.inList = none →
    (∀ l ∈ lines, trim l = l ∧ l ≠ [] ∧ plainLine l) →
    lines.foldl stepV1 st = ⟨st.adfContent ++ lines.map adfPara, none⟩ := by
  intro lines
  induction lines with
  | nil =>
    intro st hst _
    cases st with
    | mk a b => simp at hst; simp [hst]
  | cons l rest ih =>
    intro st hst hl
    obtain ⟨htr, hne, hp⟩ := hl l (by simp)
    rw [List.foldl_cons, stepV1_plain hst htr hne hp]
    rw [ih _ rfl (fun x hx => hl x (by simp [hx]))]
    simp

/-! ### The decoder on paragraph-only documents -/

theorem getLast?_some_mem {s : Str} {d : Char} (h : s.getLast? = some d) : d ∈ s := by
  rcases List.eq_nil_or_concat s with rfl | ⟨i, c, hic⟩
  · cases h
  · rw [hic] at h ⊢
    simp at h
    simp [h]

theorem startsWith_longer {x : Str} {a b : Char} (h : startsWith x [a, b] = true) :
    startsWith x [a] = true := by
  cases x with
  | nil => cases h
  | cons c r =>
    have hh : (decide (c = a) && startsWith r [b]) = true := h
    simp at hh
    show (decide (c = a) && startsWith r []) = true
    simp [hh.1, startsWith_nil_right]

theorem endsWith_two_imp {s : Str} {a b : Char} (h : endsWith s [b, a] = true) :
    endsWith s [a] = true := by
  rw [endsWith] at h ⊢
  exact startsWith_longer h

theorem traverseNode_adfText {acc l : Str} (hne : l ≠ []) :
    traverseNode acc (adfText l) = acc ++ l := by
  rw [adfText, traverseNode]
  simp +decide [hne]

theorem traverseNode_adfPara {acc l : Str} (htr : trim l = l) (hne : l ≠ []) :
    traverseNode acc (adfPara l) = acc ++ l ++ ['\n'] := by
  obtain ⟨c, r, d, hl, hlast, hc, hd⟩ := head_last_of_trimmed htr hne
  have happ : acc ++ l ≠ [] := by simp [hne]
  have hnw : trim (acc ++ l) ≠ [] := by
    rw [Ne, trim_eq_nil_iff]
    intro hall
    have hmem : d ∈ acc ++ l := List.mem_append.2 (Or.inr (getLast?_some_mem hlast))
    rw [hall d hmem] at hd
    cases hd
  have hend1 : endsWith (acc ++ l) ['\n'] = false := by
    rw [endsWith_singleton_false, getLast?_append_of_ne_nil hne, hlast]
    intro hcc
    injection hcc with hcc2
    rw [hcc2] at hd
    cases hd
  have hend2 : endsWith (acc ++ l) ['\n', '\n'] = false := by
    cases h2 : endsWith (acc ++ l) ['\n', '\n']
    · rfl
    · rw [endsWith_two_imp h2] at hend1
      cases hend1
  rw [adfPara, traverseNode]
  simp only [traverseNodes, traverseNode_adfText hne]
  simp +decide [hend1, hend2, hnw, happ]

theorem traverse_paras : ∀ (ls : List Str) (acc : Str),
    (∀ l ∈ ls, trim l = l ∧ l ≠ []) →
    traverseNodes acc (ls.map adfPara)
      = acc ++ (ls.map (fun l => l ++ ['\n'])).join := by
  intro ls
  induction ls with
  | nil => intro acc _; simp [traverseNodes]
  | cons l rest ih =>
    intro acc hl
    obtain ⟨htr, hne⟩ := hl l (by simp)
    simp only [List.map_cons, traverseNodes]
    rw [traverseNode_adfPara htr hne]
    rw [ih _ (fun x hx => hl x (by simp [hx]))]
    simp

/-! ### Newline-join facts -/

theorem join_map_nl : ∀ (ls : List Str), ls ≠ [] →
    (ls.map (fun l => l ++ ['\n'])).join = ['\n'].intercalate ls ++ ['\n'] := by
  intro ls
  induction ls with
  | nil => intro h; exact absurd rfl h
  | cons l rest ih =>
    intro _
    cases rest with
    | nil => simp [List.intercalate]
    | cons l2 rest2 =>
      rw [List.map_cons]
      simp only [List.join] at ih ⊢
      rw [List.flatten_cons, ih (by simp)]
      simp [List.intercalate, List.intersperse]

/-- `noWsNl s`: no whitespace character of `s` is immediately followed
by a newline (so the final `replace(/\s+\n/g,'\n')` is the identity). -/
def noWsNl (s : Str) : Prop :=
  List.Chain' (fun a b => ¬(isWs a = true ∧ b = '\n')) s

theorem noWsNl_of_no_nl {s : Str} (h : '\n' ∉ s) : noWsNl s := by
  induction s with
  | nil => exact List.chain'_nil
  | cons c rest ih =>
    cases rest with
    | nil => exact List.chain'_singleton c
    | cons b r =>
      rw [noWsNl, List.chain'_cons]
      constructor
      · intro hc
        exact h (by simp [hc.2])
      · exact ih (fun hm => h (by simp [List.mem_cons.1 hm]))

theorem noWsNl_tail {c : Char} {s : Str} (h : noWsNl (c :: s)) : noWsNl s :=
  List.Chain'.tail h

theorem noWsNl_dropWhile {s : Str} (p : Char → Bool) (h : noWsNl s) :
    noWsNl (s.dropWhile p) := by
  induction s with
  | nil => exact h
  | cons c rest ih =>
    rw [List.dropWhile_cons]
    split_ifs
    · exact ih (noWsNl_tail h)
    · exact h

theorem takeWhile_all_ne_nl {c : Char} {rest : Str} (hws : isWs c = true)
    (h : noWsNl (c :: rest)) : ∀ x ∈ rest.takeWhile isWs, x ≠ '\n' := by
  induction rest generalizing c with
  | nil => intro x hx; cases hx
  | cons b r ih =>
    intro x hx
    rw [noWsNl, List.chain'_cons] at h
    rw [List.takeWhile_cons] at hx
    split_ifs at hx with hb
    · rcases List.mem_cons.1 hx with rfl | hmem
      · intro hcc
        exact h.1 ⟨hws, hcc⟩
      · exact ih hb h.2 x hmem
    · cases hx

theorem takeWhile_append_all {α : Type} (p : α → Bool) {a : List α} (b : List α)
    (h : ∀ x ∈ a, p x = true) : (a ++ b).takeWhile p = a ++ b.takeWhile p := by
  induction a with
  | nil => simp
  | cons c r ih =>
    rw [List.cons_append, List.takeWhile_cons, if_pos (h c (by simp))]
    rw [ih (fun x hx => h x (by simp [hx]))]
    rfl

theorem takeWhile_eq_self_of_all {α : Type} (p : α → Bool) {a : List α}
    (h : ∀ x ∈ a, p x = true) : a.takeWhile p = a := by
  have := takeWhile_append_all p [] h
  simpa using this

theorem collapseGo_eq_self : ∀ (fuel : Nat) (s : Str), noWsNl s →
    collapseWsNl.go fuel s = s := by
  intro fuel
  induction fuel with
  | zero => intro s _; cases s <;> rfl
  | succ k ih =>
    intro s hs
    cases s with
    | nil => rfl
    | cons c rest =>
      rw [collapseWsNl.go]
      split_ifs with hws
      · dsimp only
        have hT := takeWhile_all_ne_nl hws hs
        have hrun : (c :: rest).takeWhile isWs = c :: rest.takeWhile isWs := by
          rw [List.takeWhile_cons, if_pos hws]
        have hafter : noWsNl ((c :: rest).dropWhile isWs) := noWsNl_dropWhile _ hs
        have hgo : collapseWsNl.go k ((c :: rest).dropWhile isWs)
            = (c :: rest).dropWhile isWs := ih _ hafter
        have hmatch : ¬(2 ≤ ((c :: rest).takeWhile isWs).length -
            (((c :: rest).takeWhile isWs).reverse.takeWhile (fun x => x ≠ '\n')).length) := by
          rw [hrun]
          by_cases hc : c = '\n'
          · subst hc
            have heq : (((('\n' : Char) :: rest.takeWhile isWs).reverse).takeWhile
                  (fun x => decide (x ≠ '\n')))
                = (rest.takeWhile isWs).reverse := by
              rw [List.reverse_cons]
              rw [takeWhile_append_all _ _
                (by intro x hx; simp; exact hT x (List.mem_reverse.1 hx))]
              simp
            rw [heq]
            simp
          · have heq : ((c :: rest.takeWhile isWs).reverse).takeWhile
                  (fun x => decide (x ≠ '\n'))
                = (c :: rest.takeWhile isWs).reverse := by
              apply takeWhile_eq_self_of_all
              intro x hx
              rw [List.mem_reverse, List.mem_cons] at hx
              rcases hx with rfl | hx2
              · simp [hc]
              · simp [hT x hx2]
            rw [heq]
            simp
        rw [if_neg hmatch, hgo, List.takeWhile_append_dropWhile]
      · rw [ih rest (noWsNl_tail hs)]

theorem intercalate_single (l : Str) : ['\n'].intercalate [l] = l := by
  simp [List.intercalate]

theorem intercalate_cons_cons (l l2 : Str) (rest2 : List Str) :
    ['\n'].intercalate (l :: l2 :: rest2)
      = l ++ '\n' :: ['\n'].intercalate (l2 :: rest2) := by
  simp [List.intercalate, List.intersperse]

/-- The newline-join of trimmed, non-empty, newline-free lines starts
and ends with non-whitespace characters and has no whitespace directly
before a newline. -/
theorem plain_join_facts : ∀ (ls : List Str),
    (∀ l ∈ ls, trim l = l ∧ l ≠ [] ∧ '\n' ∉ l) → ls ≠ [] →
    ∃ c r d, ['\n'].intercalate ls = c :: r ∧ isWs c = false ∧
      (c :: r).getLast? = some d ∧ isWs d = false ∧ noWsNl (c :: r) := by
  intro ls
  induction ls with
  | nil => intro _ h; exact absurd rfl h
  | cons l rest ih =>
    intro hl _
    obtain ⟨htr, hne, hnl⟩ := hl l (by simp)
    obtain ⟨c, r0, d0, hlc, hlast0, hc0, hd0⟩ := head_last_of_trimmed htr hne
    cases rest with
    | nil =>
      rw [intercalate_single]
      exact ⟨c, r0, d0, hlc, hc0, by rw [← hlc]; exact hlast0, hd0,
        by rw [← hlc] at *; exact noWsNl_of_no_nl hnl⟩
    | cons l2 rest2 =>
      obtain ⟨c', r', d', hy', hc', hlast', hd', hnws'⟩ :=
        ih (fun x hx => hl x (by simp [hx])) (by simp)
      rw [intercalate_cons_cons, hy']
      subst hlc
      refine ⟨c, r0 ++ '\n' :: c' :: r', d', by simp, hc0, ?_, hd', ?_⟩
      · have h1 : (c :: (r0 ++ '\n' :: c' :: r')) = (c :: r0) ++ ('\n' :: c' :: r') := by simp
        rw [h1, getLast?_append_of_ne_nil (by simp)]
        have h2 : ('\n' :: c' :: r') = ['\n'] ++ (c' :: r') := rfl
        rw [h2, getLast?_append_of_ne_nil (by simp)]
        exact hlast'
      · have h1 : (c :: (r0 ++ '\n' :: c' :: r')) = (c :: r0) ++ ('\n' :: c' :: r') := by simp
        rw [noWsNl, h1, List.chain'_append]
        refine ⟨noWsNl_of_no_nl hnl, ?_, ?_⟩
        · rw [List.chain'_cons]
          constructor
          · intro hcc
            rw [hcc.2] at hc'
            have : isWs '\n' = true := by decide
            rw [this] at hc'
            cases hc'
          · exact hnws'
        · intro x hx y hy
          rw [Option.mem_def] at hx hy
          have hxx : x = d0 := by
            rw [hlast0] at hx
            injection hx with h
            exact h.symm
          have hyy : y = '\n' := by
            injection hy with h
            exact h.symm
          subst hxx
          intro hcc
          rw [hcc.1] at hd0
          cases hd0

/-! ### Claim C2 -/

instance plainLine_decidable (l : Str) : Decidable (plainLine l) := by
  unfold plainLine
  infer_instance

/-- C2 (amended): for plain input text `t` with no markdown syntax (no
line's trimmed form matches the heading or list prefixes) whose lines
are additionally each non-blank and already trimmed, decoding the
encoder's output gives back `trim t`, which here equals `t` itself.
(Without the extra line conditions the encoder's per-line trimming and
blank-line dropping are visible in the output; see the
counterexample.) -/
theorem c2_roundtrip_amended (t : Str)
    (h : ∀ l ∈ splitNl t, trim l = l ∧ l ≠ [] ∧ plainLine l) :
    extractTextFromADF (adfInputOfOpt (markdownToAdfV1 (some t))) = trim t ∧ trim t = t := by
  have hlines : ∀ l ∈ splitNl t, trim l = l ∧ l ≠ [] ∧ '\n' ∉ l := by
    intro l hl
    obtain ⟨h1, h2, _⟩ := h l hl
    exact ⟨h1, h2, splitNl_no_nl t l hl⟩
  obtain ⟨c, r, d, hy, hc, hlast, hd, hnws⟩ :=
    plain_join_facts (splitNl t) hlines (splitNl_ne_nil t)
  rw [intercalate_splitNl] at hy
  have htrim : trim t = t := by
    rw [hy]
    exact trim_eq_self_of_boundary hc hlast hd
  have htne : t ≠ [] := by rw [hy]; simp
  have htrne : trim t ≠ [] := by rw [htrim]; exact htne
  refine ⟨?_, htrim⟩
  -- the encoder emits exactly one paragraph per line
  have henc : markdownToAdfV1 (some t) = some (adfDoc ((splitNl t).map adfPara)) := by
    rw [markdownToAdfV1]
    rw [if_neg (by push_neg; exact ⟨htne, htrne⟩)]
    have hrun : runLinesV1 (splitNl t) = ⟨(splitNl t).map adfPara, none⟩ := by
      rw [runLinesV1, foldV1_plain (splitNl t) ⟨[], none⟩ rfl h]
      simp
    rw [hrun]
    rw [if_neg (by simp [splitNl_ne_nil t])]
  rw [henc]
  show extractTextFromADF (.node (adfDoc ((splitNl t).map adfPara))) = trim t
  rw [extractTextFromADF]
  have hcontent : (adfDoc ((splitNl t).map adfPara)).content
      = some ((splitNl t).map adfPara) := rfl
  rw [hcontent]
  show collapseWsNl (trim (traverseNodes [] ((splitNl t).map adfPara))) = trim t
  rw [traverse_paras (splitNl t) [] (fun l hl => ⟨(h l hl).1, (h l hl).2.1⟩)]
  rw [List.nil_append, join_map_nl (splitNl t) (splitNl_ne_nil t), intercalate_splitNl]
  -- trim (t ++ ['\n']) = t, and the whitespace collapse is the identity
  have htl : trimL (t ++ ['\n']) = t ++ ['\n'] := by
    rw [hy]
    exact trimL_cons_of_not_ws hc
  have htr2 : trimR (t ++ ['\n']) = t := by
    rw [trimR_append_of_allWs (by intro x hx; simp at hx; rw [hx]; rfl)]
    rcases List.eq_nil_or_concat t with rfl | ⟨i, e, hie⟩
    · exact absurd rfl htne
    · rw [hie]
      have hgl : t.getLast? = some d := by rw [hy]; exact hlast
      rw [hie] at hgl
      simp at hgl
      subst hgl
      rw [List.concat_eq_append]
      exact trimR_concat_of_not_ws hd
  have htrimfull : trim (t ++ ['\n']) = t := by rw [trim, htl, htr2]
  rw [htrimfull]
  rw [collapseWsNl]
  rw [collapseGo_eq_self t.length t (by rw [hy]; exact hnws)]
  rw [htrim]

/-- Counterexample to C2 as stated: `"a \nb"` is plain text (no line
matches a heading or list prefix), but the encoder trims each line, so
the round trip returns `"a\nb"` while `trim "a \nb"` keeps the inner
trailing space. -/
theorem c2_roundtrip_counterexample :
    extractTextFromADF (adfInputOfOpt (markdownToAdfV1 (some "a \nb".data)))
      ≠ trim "a \nb".data :=
  by decide

/-- Witness for `c2_roundtrip_amended` at `t = "a\nb"`. -/
theorem c2_roundtrip_amended_witness :
    (∀ l ∈ splitNl "a\nb".data, trim l = l ∧ l ≠ [] ∧ plainLine l) ∧
    extractTextFromADF (adfInputOfOpt (markdownToAdfV1 (some "a\nb".data)))
      = trim "a\nb".data :=
  ⟨by decide, (c2_roundtrip_amended "a\nb".data (by decide)).1⟩

/-! ### Claim C9: the decoder implements its specification text

The source's newline rule fires only when the accumulated text has a
non-blank trim, while the claim's wording asks for plain non-emptiness;
the two agree after the final normalization because they can differ
only while the accumulated text is still entirely whitespace, which the
final trim removes.  `wsRel` captures that relation. -/

def wsRel (a b : Str) : Prop :=
  (allWs a ∧ allWs b) ∨
  ∃ w1 w2 c r, a = w1 ++ c :: r ∧ b = w2 ++ c :: r ∧ allWs w1 ∧ allWs w2 ∧ isWs c = false

theorem wsRel_nil : wsRel [] [] := Or.inl ⟨allWs_nil, allWs_nil⟩

theorem firstNonWs_split (t : Str) :
    allWs t ∨ ∃ u c v, t = u ++ c :: v ∧ allWs u ∧ isWs c = false := by
  induction t with
  | nil => exact Or.inl allWs_nil
  | cons c rest ih =>
    cases hc : isWs c
    · exact Or.inr ⟨[], c, rest, rfl, allWs_nil, hc⟩
    · rcases ih with h | ⟨u, e, v, rfl, hu, he⟩
      · refine Or.inl ?_
        intro x hx
        rcases List.mem_cons.1 hx with rfl | hx2
        · exact hc
        · exact h x hx2
      · refine Or.inr ⟨c :: u, e, v, rfl, ?_, he⟩
        intro x hx
        rcases List.mem_cons.1 hx with rfl | hx2
        · exact hc
        · exact hu x hx2

theorem wsRel_append {a b : Str} (t : Str) (h : wsRel a b) : wsRel (a ++ t) (b ++ t) := by
  rcases h with ⟨ha, hb⟩ | ⟨w1, w2, c, r, rfl, rfl, hw1, hw2, hc⟩
  · rcases firstNonWs_split t with ht | ⟨u, e, v, rfl, hu, he⟩
    · exact Or.inl ⟨allWs_append ha ht, allWs_append hb ht⟩
    · refine Or.inr ⟨a ++ u, b ++ u, e, v, by simp, by simp, allWs_append ha hu,
        allWs_append hb hu, he⟩
  · exact Or.inr ⟨w1, w2, c, r ++ t, by simp, by simp, hw1, hw2, hc⟩

theorem wsRel_trim_eq {a b : Str} (h : wsRel a b) : trim a = trim b := by
  rcases h with ⟨ha, hb⟩ | ⟨w1, w2, c, r, rfl, rfl, hw1, hw2, hc⟩
  · rw [trim_eq_nil_iff.2 ha, trim_eq_nil_iff.2 hb]
  · have h1 : trim (w1 ++ c :: r) = trimR (c :: r) := by
      rw [trim, trimL_append_of_allWs hw1, trimL_cons_of_not_ws hc]
    have h2 : trim (w2 ++ c :: r) = trimR (c :: r) := by
      rw [trim, trimL_append_of_allWs hw2, trimL_cons_of_not_ws hc]
    rw [h1, h2]

theorem wsRel_trim_ne {w1 : Str} {c : Char} {r : Str} (hw1 : allWs w1) (hc : isWs c = false) :
    trim (w1 ++ c :: r) ≠ [] := by
  rw [Ne, trim_eq_nil_iff]
  intro hall
  rw [hall c (by simp)] at hc
  cases hc

theorem paraStepRel (ty : Str) {x y : Str} (h : wsRel x y) :
    wsRel
      (if ty = "paragraph".data ∧ x ≠ [] ∧ ¬(endsWith x ['\n', '\n']) = true then
         if trim x ≠ [] ∧ ¬(endsWith x ['\n']) = true then x ++ ['\n'] else x
       else x)
      (if ty = "paragraph".data ∧ y ≠ [] ∧ ¬(endsWith y ['\n']) = true then y ++ ['\n']
       else y) := by
  by_cases hp : ty = "paragraph".data
  · rcases h with ⟨ha, hb⟩ | ⟨w1, w2, c, r, rfl, rfl, hw1, hw2, hc⟩
    · have htx : trim x = [] := trim_eq_nil_iff.2 ha
      have hcode : (if ty = "paragraph".data ∧ x ≠ [] ∧ ¬(endsWith x ['\n', '\n']) = true then
          if trim x ≠ [] ∧ ¬(endsWith x ['\n']) = true then x ++ ['\n'] else x
        else x) = x := by
        split_ifs with h1 h2
        · exact absurd htx h2.1
        · rfl
        · rfl
      rw [hcode]
      split_ifs with h1
      · refine Or.inl ⟨ha, allWs_append hb ?_⟩
        intro z hz
        simp at hz
        rw [hz]
        rfl
      · exact Or.inl ⟨ha, hb⟩
    · have hgx : (w1 ++ c :: r).getLast? = (c :: r).getLast? :=
        getLast?_append_of_ne_nil (by simp)
      have hgy : (w2 ++ c :: r).getLast? = (c :: r).getLast? :=
        getLast?_append_of_ne_nil (by simp)
      cases hE : endsWith (w2 ++ c :: r) ['\n']
      · have hEx : endsWith (w1 ++ c :: r) ['\n'] = false := by
          rw [endsWith_singleton_false] at hE ⊢
          rw [hgx, ← hgy]
          exact hE
        have hE2 : endsWith (w1 ++ c :: r) ['\n', '\n'] = false := by
          cases hq : endsWith (w1 ++ c :: r) ['\n', '\n']
          · rfl
          · rw [endsWith_two_imp hq] at hEx
            cases hEx
        rw [if_pos ⟨hp, by simp, by simp [hE2]⟩]
        rw [if_pos ⟨wsRel_trim_ne hw1 hc, by simp [hEx]⟩]
        rw [if_pos ⟨hp, by simp, by simp [hE]⟩]
        refine Or.inr ⟨w1, w2, c, r ++ ['\n'], by simp, by simp, hw1, hw2, hc⟩
      · have hEx : endsWith (w1 ++ c :: r) ['\n'] = true := by
          rw [endsWith_singleton] at hE ⊢
          rw [hgx, ← hgy]
          exact hE
        have hcode : (if ty = "paragraph".data ∧ (w1 ++ c :: r) ≠ []
              ∧ ¬(endsWith (w1 ++ c :: r) ['\n', '\n']) = true then
            if trim (w1 ++ c :: r) ≠ [] ∧ ¬(endsWith (w1 ++ c :: r) ['\n']) = true then
              (w1 ++ c :: r) ++ ['\n']
            else (w1 ++ c :: r)
          else (w1 ++ c :: r)) = (w1 ++ c :: r) := by
          split_ifs with h1 h2
          · exact absurd hEx (by simpa using h2.2)
          · rfl
          · rfl
        rw [hcode]
        have hnspec : ¬(ty = "paragraph".data ∧ (w2 ++ c :: r) ≠ []
            ∧ ¬(true : Bool) = true) := by simp
        rw [if_neg hnspec]
        exact Or.inr ⟨w1, w2, c, r, rfl, rfl, hw1, hw2, hc⟩
  · rw [if_neg (fun hcon => hp hcon.1), if_neg (fun hcon => hp hcon.1)]
    exact h

theorem sizeOf_pos_adf (a : Adf) : 1 ≤ sizeOf a := by
  cases a
  simp
  omega

theorem sizeOf_pos_adfList (l : List Adf) : 1 ≤ sizeOf l := by
  cases l
  · simp
  · simp
    omega

theorem textStepRel (ty : Str) (tx : Option Str) {x y : Str} (h : wsRel x y) :
    wsRel
      (match tx with
        | some s => if ty = "text".data ∧ s ≠ [] then x ++ s else x
        | none => x)
      (match tx with
        | some s => if ty = "text".data ∧ s ≠ [] then y ++ s else y
        | none => y) := by
  cases tx with
  | none => exact h
  | some s =>
    dsimp only
    by_cases hts : ty = "text".data ∧ s ≠ []
    · rw [if_pos hts, if_pos hts]
      exact wsRel_append s h
    · rw [if_neg hts, if_neg hts]
      exact h

theorem travRel_aux : ∀ (n : Nat),
    (∀ (a : Adf), sizeOf a ≤ n → ∀ x y, wsRel x y →
      wsRel (traverseNode x a) (traverseSpecNode y a)) ∧
    (∀ (l : List Adf), sizeOf l ≤ n → ∀ x y, wsRel x y →
      wsRel (traverseNodes x l) (traverseSpecC9 y l)) := by
  intro n
  induction n with
  | zero =>
    constructor
    · intro a h
      exact absurd h (by have := sizeOf_pos_adf a; omega)
    · intro l h
      exact absurd h (by have := sizeOf_pos_adfList l; omega)
  | succ k ih =>
    constructor
    · intro a hsz x y hxy
      cases a with
      | mk ty tx lv vr ct =>
        have h1 := textStepRel ty tx hxy
        cases ct with
        | none =>
          rw [traverseNode.eq_def, traverseSpecNode.eq_def]
          dsimp only
          exact paraStepRel ty h1
        | some l =>
          have hl : sizeOf l ≤ k := by
            simp at hsz
            have := sizeOf_pos_adfList l
            omega
          rw [traverseNode.eq_def, traverseSpecNode.eq_def]
          dsimp only
          exact paraStepRel ty (ih.2 l hl _ _ h1)
    · intro l hsz x y hxy
      cases l with
      | nil => exact hxy
      | cons a as =>
        have ha : sizeOf a ≤ k := by
          simp at hsz
          have := sizeOf_pos_adfList as
          omega
        have has : sizeOf as ≤ k := by
          simp at hsz
          have := sizeOf_pos_adf a
          omega
        rw [traverseNodes.eq_def, traverseSpecC9.eq_def]
        dsimp only
        exact ih.2 as has _ _ (ih.1 a ha _ _ hxy)

/-! ### Claim C9 -/

/-- C9: `extractTextFromADF` returns exactly what the specification's
wording describes — empty string for absent input, bare strings
unchanged, and for content-bearing trees the Text-value concatenation
with the spec's paragraph-newline rule followed by the final trim and
whitespace-before-newline collapse (`decodeSpecC9` transcribes that
wording; the source's extra trim-non-blank/`"\n\n"` guards are
invisible after the final normalization). -/
theorem c9_decoder_matches_spec (adf : AdfInput) :
    extractTextFromADF adf = decodeSpecC9 adf := by
  cases adf with
  | null => rfl
  | str s => rfl
  | node a =>
    rw [extractTextFromADF, decodeSpecC9]
    cases hct : a.content with
    | none => rfl
    | some nodes =>
      show collapseWsNl (trim (traverseNodes [] nodes))
        = collapseWsNl (trim (traverseSpecC9 [] nodes))
      have hrel := (travRel_aux (sizeOf nodes)).2 nodes le_rfl [] [] wsRel_nil
      rw [wsRel_trim_eq hrel]
